import Mathlib

/-!
Verification of The-Reef's protocol-normalization and agent-loop core.

The JavaScript source is shallowly embedded: strings are `List Char`,
JS `null`/`undefined` become `Option`, JS objects become structures, and
the stateful loops become explicit state-passing functions.  Each
definition names the source function it embeds.
-/

namespace Reef

/-! ## String utilities modelling the JavaScript primitives used by the source -/

/-- Strings are modelled as character lists so that all operations compute. -/
abbrev Str := List Char

/-- JS `String.prototype.includes(needle)`: contiguous-substring test. -/
def strIncludes (needle : Str) : Str → Bool
  | [] => needle.isPrefixOf []
  | c :: rest => needle.isPrefixOf (c :: rest) || strIncludes needle rest

/-- The JS regex whitespace class `\s` (ASCII part plus NBSP and BOM; the
remaining Unicode space code points do not occur in any string this
development evaluates). -/
def jsWhite (c : Char) : Bool :=
  c = ' ' || c = '\t' || c = '\n' || c = '\r' ||
  c = '\x0b' || c = '\x0c' || c = ' ' || c = '﻿'

/-- JS `String.prototype.trim()`. -/
def jsTrim (s : Str) : Str :=
  ((s.dropWhile jsWhite).reverse.dropWhile jsWhite).reverse

/-- Case-insensitive character comparison (the regex `/i` flag). -/
def lowerEq (a b : Char) : Bool := a.toLower = b.toLower

/-- Case-insensitive "starts with" test. -/
def ciPref : Str → Str → Bool
  | [], _ => true
  | _ :: _, [] => false
  | a :: as, b :: bs => lowerEq a b && ciPref as bs

/-- Split at the first case-insensitive occurrence of `needle`, returning
the part before it and the part after it (the lazy regex `[\s\S]*?`
followed by a literal). -/
def ciSplitFirst (needle : Str) : Str → Option (Str × Str)
  | [] => if ciPref needle [] then some ([], []) else none
  | c :: rest =>
    if ciPref needle (c :: rest) then some ([], (c :: rest).drop needle.length)
    else (ciSplitFirst needle rest).map (fun p => (c :: p.1, p.2))

/-! ## Reasoning/text extractor (part_008 lines 598–646) -/

/-- Result shape `{ text, reasoning }` of the text extractors. -/
structure Extracted where
  text : Str
  reasoning : Option Str
deriving Repr, DecidableEq

/-- The `'[no response]'` sentinel. -/
def NO_RESPONSE : Str := "[no response]".data

def THINK_OPEN : Str := "<think>".data
def THINK_CLOSE : Str := "</think>".data

/-- `extractThinkTags(raw)` (part_008 lines 601–610).  Matches
`/^\s*<think>([\s\S]*?)<\/think>\s*/i`: optional leading whitespace, a
case-insensitive `<think>` tag, lazy content up to the first closing tag.
The greedy trailing `\s*` of the regex is absorbed by the `.trim()`
applied to the remainder, so the two are folded together here. -/
def extractThinkTags (raw : Str) : Extracted :=
  if raw = [] then { text := raw, reasoning := none }
  else
    let afterWs := raw.dropWhile jsWhite
    if ciPref THINK_OPEN afterWs then
      match ciSplitFirst THINK_CLOSE (afterWs.drop THINK_OPEN.length) with
      | none => { text := raw, reasoning := none }
      | some (inner, rest) =>
        let t := jsTrim rest
        let r := jsTrim inner
        { text := if t = [] then NO_RESPONSE else t
          reasoning := if r = [] then none else some r }
    else { text := raw, reasoning := none }

def CHANNEL_TAG : Str := "<|channel|>".data
def MESSAGE_TAG : Str := "<|message|>".data
def END_TAG : Str := "<|end|>".data
def START_TAG : Str := "<|start|>".data
def FINAL_CH : Str := "final".data
def RESPONSE_CH : Str := "response".data
def ANALYSIS_CH : Str := "analysis".data
def THINKING_CH : Str := "thinking".data

/-- The regex word class `\w` = `[A-Za-z0-9_]`. -/
def wordChar (c : Char) : Bool := c.isAlphanum || c = '_'

/-- A channel body ends where `<|end|>` or `<|start|>` begins (the regex
lookahead `(?=<\|end\|>|<\|start\|>|$)`) or at end of string. -/
def qwenStopHere (s : Str) : Bool := END_TAG.isPrefixOf s || START_TAG.isPrefixOf s

/-- Take the channel body: everything before the first stop token. -/
def takeUntilStop : Str → Str
  | [] => []
  | c :: rest => if qwenStopHere (c :: rest) then [] else c :: takeUntilStop rest

/-- One left-to-right pass of the global regex
`/<\|channel\|>(\w+)<\|message\|>([\s\S]*?)(?=<\|end\|>|<\|start\|>|$)/g`
(part_008 lines 623–627): collects `(name, trimmed body)` pairs in match
order.  `fuel` bounds the scan position; it is initialised to the string
length, which suffices because every step consumes at least one
character. -/
def scanChannelsAux : Nat → Str → List (Str × Str)
  | 0, _ => []
  | _, [] => []
  | fuel + 1, c :: rest =>
    if CHANNEL_TAG.isPrefixOf (c :: rest) then
      let afterCh := (c :: rest).drop CHANNEL_TAG.length
      let w := afterCh.takeWhile wordChar
      let afterW := afterCh.dropWhile wordChar
      if w ≠ [] && MESSAGE_TAG.isPrefixOf afterW then
        let body := afterW.drop MESSAGE_TAG.length
        let content := takeUntilStop body
        (w, jsTrim content) :: scanChannelsAux fuel (body.drop content.length)
      else scanChannelsAux fuel rest
    else scanChannelsAux fuel rest

def scanChannels (s : Str) : List (Str × Str) := scanChannelsAux s.length s

/-- `channels[name]` after the `while` loop: a later match with the same
channel name overwrites an earlier one (JS object assignment). -/
def lookupChan : List (Str × Str) → Str → Option Str
  | [], _ => none
  | (k, v) :: rest, name =>
    match lookupChan rest name with
    | some v2 => some v2
    | none => if k = name then some v else none

/-- `extractQwenChannels(raw)` (part_008 lines 618–636).  Returns `none`
unless the string contains the channel marker and a `final` (or
`response`) channel was collected. -/
def extractQwenChannels (raw : Str) : Option Extracted :=
  if raw = [] || !strIncludes CHANNEL_TAG raw then none
  else
    let chs := scanChannels raw
    if (lookupChan chs FINAL_CH).isNone && (lookupChan chs RESPONSE_CH).isNone then none
    else
      let t := jsTrim ((lookupChan chs FINAL_CH).getD ((lookupChan chs RESPONSE_CH).getD []))
      let r := jsTrim ((lookupChan chs ANALYSIS_CH).getD ((lookupChan chs THINKING_CH).getD []))
      some { text := if t = [] then NO_RESPONSE else t
             reasoning := if r = [] then none else some r }

/-- `extractReasoningAndText(raw)` (part_008 lines 642–646): Qwen channel
format first, then `<think>` tags.  All call sites in the source pass a
string (never `null`), so the internal `raw ?? '[no response]'` coalesce
is the identity here. -/
def extractReasoningAndText (raw : Str) : Extracted :=
  match extractQwenChannels raw with
  | some e => e
  | none => extractThinkTags raw

/-! ## Mode detection (part_008 lines 14–20, renderer.js lines 1149–1154) -/

inductive Mode
  | anthropic | openai | lmstudio | lmstudioV1
deriving Repr, DecidableEq

def V1_MESSAGES : Str := "/v1/messages".data
def ANTHROPIC_COM : Str := "anthropic.com".data
def API_V1_CHAT : Str := "/api/v1/chat".data
def API_V0 : Str := "/api/v0/".data

/-- `detectMode(endpoint)` (part_008 lines 14–20), the protocol layer's
detector.  A pure total function by construction. -/
def detectMode (endpoint : Str) : Mode :=
  if strIncludes V1_MESSAGES endpoint then .anthropic
  else if strIncludes ANTHROPIC_COM endpoint then .anthropic
  else if strIncludes API_V1_CHAT endpoint then .lmstudioV1
  else if strIncludes API_V0 endpoint then .lmstudio
  else .openai

/-- `detectModeClient(endpoint)` (renderer.js lines 1149–1154), the
client-side mirror. -/
def detectModeClient (endpoint : Str) : Mode :=
  if strIncludes V1_MESSAGES endpoint || strIncludes ANTHROPIC_COM endpoint then .anthropic
  else if strIncludes API_V1_CHAT endpoint then .lmstudioV1
  else if strIncludes API_V0 endpoint then .lmstudio
  else .openai

/-! ## Conversation entries and the LM Studio v1 request builder
    (part_008 lines 73–93) -/

/-- Message content: a plain string or a structured block list (kept as an
opaque serialized form, since the builders only test `typeof === 'string'`
and the estimator only measures `JSON.stringify(c).length`). -/
inductive MsgContent
  | str (s : Str)
  | blocks (raw : Str)
deriving Repr, DecidableEq

structure ChatMsg where
  role : Str
  content : MsgContent
deriving Repr, DecidableEq

def USER_ROLE : Str := "user".data

/-- JS truthiness of a nullable string: neither `null`/`undefined` nor `''`. -/
def jsTruthy : Option Str → Bool
  | none => false
  | some s => !s.isEmpty

/-- `const lastUser = [...messages].reverse().find(m => m.role === 'user');
const userText = typeof lastUser?.content === 'string' ? lastUser.content : '';` -/
def lastUserText (messages : List ChatMsg) : Str :=
  match messages.reverse.find? (fun m => m.role == USER_ROLE) with
  | some m => match m.content with
    | .str s => s
    | .blocks _ => []
  | none => []

/-- The body built by `buildLMStudioV1Request`.  `Option` fields are absent
when `none`.  The source never sets a `tools` key; the field is carried
here (always `none`) so that "no inline tool schemas" is statable. -/
structure LMStudioV1Body where
  model : Str
  input : Str
  system_prompt : Option Str
  previous_response_id : Option Str
  store : Option Bool
  integrations : Option (List Str)
  tools : Option (List Str)
deriving Repr, DecidableEq

/-- `buildLMStudioV1Request` (part_008 lines 73–93), body part.  The
`integrations` descriptors are opaque strings. -/
def buildLMStudioV1Request (model : Str) (systemPrompt : Option Str)
    (messages : List ChatMsg) (previousResponseId : Option Str)
    (store : Option Bool) (integrations : List Str) : LMStudioV1Body :=
  { model := model
    input := lastUserText messages
    system_prompt :=
      if jsTruthy systemPrompt && !jsTruthy previousResponseId then systemPrompt else none
    previous_response_id :=
      if jsTruthy previousResponseId then previousResponseId else none
    store := if store = some false then some false else none
    integrations := if integrations.isEmpty then none else some integrations
    tools := none }

/-! ## Admission controller (renderer.js lines 100–120) -/

def MAX_LLM_CONCURRENT : Nat := 1

/-- Admission-controller state: `llmActiveSlots` plus the FIFO
`llmSlotWaiters` (waiter identities, oldest first).  `holders` is a ghost
count of callers that have been granted a slot — immediately or by
hand-over — and have not yet released it. -/
structure SlotState where
  active : Nat
  waiters : List Nat
  holders : Nat
deriving Repr, DecidableEq

def slotInit : SlotState := { active := 0, waiters := [], holders := 0 }

/-- `acquireLlmSlot` (lines 109–114): grant immediately while under the
cap, otherwise append the caller to the waiter queue. -/
def acquireLlmSlot (n : Nat) (s : SlotState) (w : Nat) : SlotState :=
  if s.active < n then
    { active := s.active + 1, waiters := s.waiters, holders := s.holders + 1 }
  else
    { s with waiters := s.waiters ++ [w] }

/-- `releaseLlmSlot` (lines 116–120): `shift()` the oldest waiter and hand
the slot straight to it (the releasing holder leaves, the woken waiter
becomes a holder, `llmActiveSlots` untouched), else decrement
`llmActiveSlots` floored at 0 (`Math.max(0, …)`).  Also returns the
identity of the waiter that was handed the slot, if any. -/
def releaseLlmSlot (s : SlotState) : SlotState × Option Nat :=
  match s.waiters with
  | next :: rest =>
      ({ active := s.active, waiters := rest, holders := s.holders - 1 + 1 }, some next)
  | [] =>
      ({ active := s.active - 1, waiters := [], holders := s.holders - 1 }, none)

inductive SlotOp
  | acquire (w : Nat)
  | release
deriving Repr, DecidableEq

def applySlotOp (n : Nat) (s : SlotState) : SlotOp → SlotState
  | .acquire w => acquireLlmSlot n s w
  | .release => (releaseLlmSlot s).1

def runSlotOps (n : Nat) (ops : List SlotOp) (s : SlotState) : SlotState :=
  ops.foldl (applySlotOp n) s

/-- The controller's inductive invariant. -/
def SlotInv (n : Nat) (s : SlotState) : Prop :=
  s.holders ≤ s.active ∧ s.active ≤ n ∧ (s.waiters ≠ [] → s.active = n)

/-! ## Compaction trigger (renderer.js lines 650–698) -/

def COMPACT_THRESHOLD : Nat := 30
def DEFAULT_CONTEXT_WINDOW : Nat := 4096

/-- `maybeAutoCompact` (renderer.js lines 666–678) reduced to its trigger
decision: real token counts when available (85 % of the context window,
the float `ctxWin * 0.85` modelled as the exact rational — the claims'
inputs are far from the boundary, where the double and the rational
comparison agree), else the raw message-count threshold. -/
def maybeAutoCompactTriggers (thinking : Bool) (inToks outToks : Option Nat)
    (convLen ctxWin : Nat) : Bool :=
  if thinking then false
  else match inToks with
    | some t => decide (100 * (t + outToks.getD 0) ≥ 85 * ctxWin)
    | none => decide (convLen ≥ COMPACT_THRESHOLD)

def msgChars : MsgContent → Nat
  | .str s => s.length
  | .blocks raw => raw.length

/-- `estimateTokens` (renderer.js lines 687–698): characters of the system
prompt plus every message content (string length, or serialized length for
block content), through `Math.round(chars / 4)` — which on naturals is
`(chars + 2) / 4` (halves round up). -/
def estimateTokens (systemPrompt : Str) (conv : List ChatMsg) : Nat :=
  (systemPrompt.length + (conv.map (fun m => msgChars m.content)).sum + 2) / 4

/-! ## Agent loop engine (renderer.js lines 1282–1505) -/

def HARD_TOOL_CAP : Nat := 20

/-- `getMaxToolSteps()` (renderer.js lines 135–142): the configured
`maxToolSteps` (`?? 5`), floored at 1 and capped at `HARD_TOOL_CAP`. -/
def getMaxToolSteps (maxToolSteps : Option Nat) : Nat :=
  min (max 1 (maxToolSteps.getD 5)) HARD_TOOL_CAP

structure ToolDef where
  name : Str
deriving Repr, DecidableEq

def REEF_POST : Str := "reef_post".data

/-- `heartbeatApiToolDefs()` (renderer.js lines 1187–1189): the enabled
tool set with the publishing tool removed. -/
def heartbeatApiToolDefs (toolDefs : List ToolDef) : List ToolDef :=
  toolDefs.filter (fun t => t.name != REEF_POST)

structure ToolCall where
  id : Str
  name : Str
  input : Str
deriving Repr, DecidableEq

structure TokenStats where
  inputTokens : Option Nat
  outputTokens : Option Nat
deriving Repr, DecidableEq

/-- The unified completion result as consumed by `sendToPersona`.
`rawContent` / `rawToolCalls` are re-appended verbatim, so they stay
opaque blobs here. -/
structure CallResult where
  text : Option Str
  toolUse : Option (List ToolCall)
  rawContent : Str
  rawToolCalls : Str
  reasoning : Option Str
  stats : Option TokenStats
  responseId : Option Str
  mode : Mode
deriving Repr, DecidableEq

/-- One conversation entry, covering the dialect-specific shapes the loop
appends (renderer.js lines 1439–1498). -/
inductive Entry
  | userMsg (content : Str)
  | assistantFinal (content : Str)
  | assistantAnthropic (raw : Str)
  | assistantOpenAI (text : Option Str) (rawToolCalls : Str)
  | anthropicToolResults (results : List (Str × Str))
  | openaiToolResult (callId : Str) (content : Str)
deriving Repr, DecidableEq

/-- The entity's persistent per-session state touched by the loop:
`state.conversations[id]`, `state.lastResponseId[id]`,
`state.lastTokens[id]`, `state.lastActivity[id]`. -/
structure Session where
  conversation : List Entry
  lastResponseId : Option Str
  lastTokens : Option TokenStats
  lastActivity : Option Nat
deriving Repr, DecidableEq

/-- The loop's environment: the backend (`callPersonaOnce`, indexed by step
and by the tool set sent, `none` = wire error), the external tool executor
(`Except` = JS throw), the abort flag read at the top of each step, and
the wall clock. -/
structure LoopEnv where
  callResult : Nat → List ToolDef → Option CallResult
  execTool : Nat → ToolCall → Except Str Str
  abortAt : Nat → Bool
  now : Nat

structure LoopCfg where
  useTools : Bool
  stepCap : Nat
  isHeartbeat : Bool
  toolDefs : List ToolDef

/-- One issued wire call: the step index and the tool set it was built
with. -/
structure CallRecord where
  step : Nat
  tools : List ToolDef
deriving Repr, DecidableEq

structure LoopOut where
  session : Session
  localMessages : List Entry
  calls : List CallRecord

/-- `resultStr = await executeTool(...)` with
`catch (err) { resultStr = Error: err.message }` (lines 1463–1468). -/
def toolResultStr : Except Str Str → Str
  | .ok s => s
  | .error msg => "Error: ".data ++ msg

/-- Lines 1502–1504 (also 1362–1364, 1414–1416): on every exit path
`state.lastActivity[id]` is refreshed for normal calls only. -/
def finishTouch (cfg : LoopCfg) (session : Session) (now : Nat) : Session :=
  if cfg.isHeartbeat then session else { session with lastActivity := some now }

/-- The `responseId` half of lines 1371–1377. -/
def noteResponseId (session : Session) (r : CallResult) : Session :=
  if jsTruthy r.responseId then { session with lastResponseId := r.responseId } else session

/-- Lines 1371–1377: persist `responseId` and real token stats for normal
(non-heartbeat) calls only. -/
def noteResultState (cfg : LoopCfg) (session : Session) (r : CallResult) : Session :=
  if cfg.isHeartbeat then session
  else
    match r.stats with
    | some st =>
      match st.inputTokens with
      | some itk =>
          { noteResponseId session r with
            lastTokens := some { inputTokens := some itk, outputTokens := st.outputTokens } }
      | none => noteResponseId session r
    | none => noteResponseId session r

/-- Append entries to the heartbeat-local buffer or to the entity's
conversation (the `isHeartbeat` branches of lines 1439–1498). -/
def pushEntries (cfg : LoopCfg) (session : Session) (localMsgs : List Entry)
    (es : List Entry) : Session × List Entry :=
  if cfg.isHeartbeat then (session, localMsgs ++ es)
  else ({ session with conversation := session.conversation ++ es }, localMsgs)

/-- The tool set sent at `step` (lines 1351–1356): empty on the last
allowed step, else the full or heartbeat-filtered set. -/
def loopTools (cfg : LoopCfg) (step : Nat) : List ToolDef :=
  if cfg.useTools && !(step == cfg.stepCap) then
    (if cfg.isHeartbeat then heartbeatApiToolDefs cfg.toolDefs else cfg.toolDefs)
  else []

/-- Lines 1380–1398: on the no-tool/last-step path, truthy final text is
appended to the conversation for normal calls. -/
def loopFinalSession (cfg : LoopCfg) (sNoted : Session) (r : CallResult) : Session :=
  if jsTruthy r.text && !cfg.isHeartbeat then
    { sNoted with
      conversation := sNoted.conversation ++ [Entry.assistantFinal (r.text.getD [])] }
  else sNoted

/-- Lines 1439–1457: the assistant turn in dialect-appropriate shape. -/
def loopAssistantEntry (r : CallResult) : Entry :=
  if r.mode = Mode.anthropic then .assistantAnthropic r.rawContent
  else .assistantOpenAI r.text r.rawToolCalls

/-- Lines 1459–1471: execute each requested call in order; a throw becomes
the `Error: …` textual result. -/
def loopToolResults (env : LoopEnv) (step : Nat) (r : CallResult) : List (Str × Str) :=
  (r.toolUse.getD []).map (fun tc => (tc.id, toolResultStr (env.execTool step tc)))

/-- Lines 1473–1498: tool results in dialect-appropriate shape. -/
def loopResultEntries (env : LoopEnv) (step : Nat) (r : CallResult) : List Entry :=
  if r.mode = Mode.anthropic then [.anthropicToolResults (loopToolResults env step r)]
  else (loopToolResults env step r).map (fun rr => Entry.openaiToolResult rr.1 rr.2)

/-- The whole tool turn (assistant push, execution, result push),
returning the updated session and heartbeat-local buffer. -/
def loopToolTurn (env : LoopEnv) (cfg : LoopCfg) (step : Nat)
    (sNoted : Session) (localMsgs : List Entry) (r : CallResult) : Session × List Entry :=
  let p1 := pushEntries cfg sNoted localMsgs [loopAssistantEntry r]
  pushEntries cfg p1.1 p1.2 (loopResultEntries env step r)

/-- The `for (let step = 0; step <= stepCap; step++)` body of
`sendToPersona` (renderer.js lines 1346–1505).  `fuel` is the number of
remaining iterations (`stepCap + 1 - step`); the accumulator `acc`
records the wire calls issued so far. -/
def runLoopAux (env : LoopEnv) (cfg : LoopCfg) :
    Nat → Nat → Session → List Entry → List CallRecord → LoopOut
  | 0, _, session, localMsgs, acc =>
      { session := finishTouch cfg session env.now, localMessages := localMsgs, calls := acc }
  | fuel + 1, step, session, localMsgs, acc =>
    if env.abortAt step then
      { session := finishTouch cfg session env.now, localMessages := localMsgs, calls := acc }
    else
      let acc2 := acc ++ [{ step := step, tools := loopTools cfg step }]
      match env.callResult step (loopTools cfg step) with
      | none =>
        { session := finishTouch cfg session env.now, localMessages := localMsgs, calls := acc2 }
      | some r =>
        if (r.toolUse.getD []).length == 0 || step == cfg.stepCap then
          { session := finishTouch cfg (loopFinalSession cfg (noteResultState cfg session r) r)
              env.now,
            localMessages := localMsgs, calls := acc2 }
        else
          let p := loopToolTurn env cfg step (noteResultState cfg session r) localMsgs r
          runLoopAux env cfg fuel (step + 1) p.1 p.2 acc2

/-- One invocation of `sendToPersona`. -/
def runLoop (env : LoopEnv) (cfg : LoopCfg) (session : Session)
    (localMsgs : List Entry) : LoopOut :=
  runLoopAux env cfg (cfg.stepCap + 1) 0 session localMsgs []

/-! ## Unified results and JSON values (part_008 lines 543–554) -/

/-- JSON argument values, identified with a canonical serialization: all
embedded functions treat parsed tool inputs as opaque values compared
only for equality, so a canonical-text representative suffices.  The
transport's `JSON.parse` is abstracted as `dec : Str → Option Json`
(`none` = parse failure, which the source degrades to the empty object);
a fixture's serializer is `enc : Json → Str`. -/
structure Json where
  canon : Str
deriving Repr, DecidableEq

/-- The `\x7b\x7d` fallback of the `catch` arms. -/
def Json.emptyObj : Json := { canon := "\x7b\x7d".data }

/-- A normalized tool call `{id, name, input}`.  `id`/`name` are `Option`
because the dialect_A stream carries `cb.id ?? null`. -/
structure UToolCall where
  id : Option Str
  name : Option Str
  input : Json
deriving Repr, DecidableEq

/-- The unified completion result restricted to the observable fields
(`rawContent` is explicitly excluded by the spec's equality). -/
structure Unified where
  text : Option Str
  toolUse : Option (List UToolCall)
  reasoning : Option Str
  mode : Mode
  inputTokens : Option Nat
  outputTokens : Option Nat
  responseId : Option Str
deriving Repr, DecidableEq

/-- JS `Map` lookup (numeric keys, insertion order preserved). -/
def mapGet {α : Type} : List (Nat × α) → Nat → Option α
  | [], _ => none
  | (k, v) :: rest, i => if k = i then some v else mapGet rest i

/-- JS `Map.set`: overwrite in place when the key exists, else append. -/
def mapSet {α : Type} : List (Nat × α) → Nat → α → List (Nat × α)
  | [], i, v => [(i, v)]
  | (k, w) :: rest, i, v =>
    if k = i then (k, v) :: rest else (k, w) :: mapSet rest i v

/-! ## dialect_A (anthropic): parser, stream machine, fixture encoder -/

def TOOL_USE : Str := "tool_use".data

/-- A content block of a complete dialect_A response body. -/
inductive AnthBlock
  | text (t : Str)
  | thinking (t : Str)
  | toolUse (id name : Str) (input : Json)
deriving Repr, DecidableEq

/-- A complete dialect_A response body (`content`, `stop_reason`,
`usage`). -/
structure AnthBody where
  content : List AnthBlock
  stopReason : Option Str
  inputTokens : Option Nat
  outputTokens : Option Nat
deriving Repr, DecidableEq

/-- `join('\n')`. -/
def joinSepNL : List Str → Str
  | [] => []
  | [s] => s
  | s :: rest => s ++ '\n' :: joinSepNL rest

/-- The texts of the body's `text` blocks, in order. -/
def anthTextBlocks (content : List AnthBlock) : List Str :=
  content.filterMap (fun b => match b with
    | AnthBlock.text t => some t
    | _ => none)

/-- The texts of the body's `thinking` blocks, in order
(`b.thinking || ''` is the identity on the modelled strings). -/
def anthThinkBlocks (content : List AnthBlock) : List Str :=
  content.filterMap (fun b => match b with
    | AnthBlock.thinking t => some t
    | _ => none)

/-- `content.filter(thinking).map(b => b.thinking || '').join('\n').trim()
|| null` (lines 560–563). -/
def anthThinkingText (content : List AnthBlock) : Option Str :=
  let s := jsTrim (joinSepNL (anthThinkBlocks content))
  if s = [] then none else some s

/-- `content.find(b => b.type === 'text')?.text` (first text block). -/
def anthFirstText (content : List AnthBlock) : Option Str :=
  content.findSome? (fun b => match b with
    | AnthBlock.text t => some t
    | _ => none)

/-- All `tool_use` blocks, as `{id, name, input}` (lines 572–574). -/
def anthToolUses (content : List AnthBlock) : List UToolCall :=
  content.filterMap (fun b => match b with
    | AnthBlock.toolUse i n inp => some { id := some i, name := some n, input := inp }
    | _ => none)

/-- `parseAnthropicResponse` (part_008 lines 556–596), restricted to the
unified fields. -/
def parseAnthropicResponse (data : AnthBody) : Unified :=
  if data.stopReason = some TOOL_USE then
    { text := anthFirstText data.content
      toolUse := some (anthToolUses data.content)
      reasoning := anthThinkingText data.content
      mode := Mode.anthropic
      inputTokens := data.inputTokens
      outputTokens := data.outputTokens
      responseId := none }
  else
    { text := some ((anthFirstText data.content).getD NO_RESPONSE)
      toolUse := none
      reasoning := anthThinkingText data.content
      mode := Mode.anthropic
      inputTokens := data.inputTokens
      outputTokens := data.outputTokens
      responseId := none }

inductive BlockKind
  | text | thinking | toolUse | other
deriving Repr, DecidableEq

inductive AnthDelta
  | textDelta (s : Str)
  | thinkingDelta (s : Str)
  | inputJsonDelta (s : Str)
  | otherDelta
deriving Repr, DecidableEq

/-- The dialect_A SSE event vocabulary consumed by `streamAnthropic`. -/
inductive AnthEvent
  | messageStart (inputTokens : Option Nat)
  | blockStart (index : Nat) (kind : BlockKind) (id name : Option Str)
  | blockDelta (index : Nat) (d : AnthDelta)
  | blockStop (index : Nat)
  | messageDelta (outputTokens : Option Nat)
  | otherEvent
deriving Repr, DecidableEq

/-- One open block of the stream state:
`{ type, content: '', id, name }` (line 371). -/
structure SBlock where
  kind : BlockKind
  content : Str
  id : Option Str
  name : Option Str
deriving Repr, DecidableEq

/-- `streamAnthropic`'s mutable state (lines 358–360). -/
structure AnthState where
  blocks : List (Nat × SBlock)
  inputTokens : Option Nat
  outputTokens : Option Nat
deriving Repr, DecidableEq

/-- The `onEvent` switch of `streamAnthropic` (lines 363–414); chunk
emission is an output channel and does not feed the resolved result, so
only the state transition is modelled. -/
def anthStep (st : AnthState) : AnthEvent → AnthState
  | .messageStart it => { st with inputTokens := it }
  | .blockStart i kind id name =>
      { st with
        blocks := mapSet st.blocks i
                    ({ kind := kind, content := [], id := id, name := name } : SBlock) }
  | .blockDelta i d =>
      match mapGet st.blocks i with
      | none => st
      | some b =>
        match d with
        | .textDelta s =>
            { st with blocks := mapSet st.blocks i { b with content := b.content ++ s } }
        | .thinkingDelta s =>
            { st with blocks := mapSet st.blocks i { b with content := b.content ++ s } }
        | .inputJsonDelta s =>
            { st with blocks := mapSet st.blocks i { b with content := b.content ++ s } }
        | .otherDelta => st
  | .blockStop _ => st
  | .messageDelta ot =>
      match ot with
      | some o => { st with outputTokens := some o }
      | none => st
  | .otherEvent => st

/-- `[...blocks.entries()].sort((a, b) => a[0] - b[0])` (line 421). -/
def sortBlocks (bs : List (Nat × SBlock)) : List (Nat × SBlock) :=
  bs.insertionSort (fun a b => a.1 ≤ b.1)

/-- The `onEnd` reconstruction of `streamAnthropic` (lines 416–449),
restricted to the unified fields. -/
def anthFinalize (dec : Str → Option Json) (st : AnthState) : Unified :=
  let sorted := sortBlocks st.blocks
  let textJoin := (sorted.filterMap (fun kv => match kv.2.kind with
    | BlockKind.text => some kv.2.content
    | _ => none)).flatten
  let thinkJoin := (sorted.filterMap (fun kv => match kv.2.kind with
    | BlockKind.thinking => some kv.2.content
    | _ => none)).flatten
  let toolUse := sorted.filterMap (fun kv => match kv.2.kind with
    | BlockKind.toolUse =>
        some ({ id := kv.2.id
                name := kv.2.name
                input := (dec kv.2.content).getD Json.emptyObj } : UToolCall)
    | _ => none)
  { text := if textJoin = [] then (if toolUse = [] then some NO_RESPONSE else none)
            else some textJoin
    toolUse := if toolUse = [] then none else some toolUse
    reasoning := if thinkJoin = [] then none else some thinkJoin
    mode := Mode.anthropic
    inputTokens := st.inputTokens
    outputTokens := st.outputTokens
    responseId := none }

/-- The result `streamAnthropic` resolves with, as a fold over the event
list. -/
def streamAnthropicResult (dec : Str → Option Json) (events : List AnthEvent) : Unified :=
  anthFinalize dec (events.foldl anthStep
    { blocks := [], inputTokens := none, outputTokens := none })

/-- The stream-state image of a body block: the accumulated content of a
tool block is its serialized input. -/
def anthSBlock (enc : Json → Str) : AnthBlock → SBlock
  | .text t => { kind := .text, content := t, id := none, name := none }
  | .thinking t => { kind := .thinking, content := t, id := none, name := none }
  | .toolUse id name inp =>
      { kind := .toolUse, content := enc inp, id := some id, name := some name }

/-- Modelled from the spec: the per-block slice of the test harness
`fixtureStreamOf` for dialect_A (§4.4, §8) — not part of src/.  Each block
becomes `content_block_start`, one full delta of the matching kind
(`input_json_delta` carries the serialized input), and
`content_block_stop`. -/
def anthEncodeBlock (enc : Json → Str) (i : Nat) : AnthBlock → List AnthEvent
  | .text t =>
      [.blockStart i .text none none, .blockDelta i (.textDelta t), .blockStop i]
  | .thinking t =>
      [.blockStart i .thinking none none, .blockDelta i (.thinkingDelta t), .blockStop i]
  | .toolUse id name inp =>
      [.blockStart i .toolUse (some id) (some name),
       .blockDelta i (.inputJsonDelta (enc inp)), .blockStop i]

def anthEncodeBlocks (enc : Json → Str) : Nat → List AnthBlock → List AnthEvent
  | _, [] => []
  | i, b :: rest => anthEncodeBlock enc i b ++ anthEncodeBlocks enc (i + 1) rest

/-- Modelled from the spec: `fixtureStreamOf` for dialect_A — a
`message_start` carrying the input-token usage, the blocks in order with
consecutive indices, and a final `message_delta` carrying the
output-token usage. -/
def fixtureStreamOfAnthropic (enc : Json → Str) (body : AnthBody) : List AnthEvent :=
  AnthEvent.messageStart body.inputTokens ::
    (anthEncodeBlocks enc 0 body.content ++ [AnthEvent.messageDelta body.outputTokens])

/-- A well-formed dialect_A fixture: the shape invariants of real
recorded responses — at most one text block and its text nonempty, at
most one thinking block already trimmed, tool blocks present exactly when
the stop reason is `tool_use`, and the serializer/deserializer pair
round-trips on the fixture's tool inputs. -/
def AnthWf (enc : Json → Str) (dec : Str → Option Json) (body : AnthBody) : Prop :=
  (anthTextBlocks body.content).length ≤ 1 ∧
  (∀ t ∈ anthTextBlocks body.content, t ≠ []) ∧
  (anthThinkBlocks body.content).length ≤ 1 ∧
  (∀ t ∈ anthThinkBlocks body.content, jsTrim t = t) ∧
  (body.stopReason = some TOOL_USE ↔ anthToolUses body.content ≠ []) ∧
  (∀ b ∈ body.content, ∀ id name inp, b = AnthBlock.toolUse id name inp →
    dec (enc inp) = some inp)

/-! ## dialect_B/dialect_C (openai, lmstudio): parser, stream machine,
    fixture encoder.  Both modes run the same code path
    (`parseOpenAIResponse` / `streamOpenAI`); the mode only tags the
    result. -/

def TOOL_CALLS : Str := "tool_calls".data

/-- `choices[0].message.tool_calls[i]` of a complete body. -/
structure OAIToolCall where
  id : Str
  name : Str
  args : Str
deriving Repr, DecidableEq

/-- `choices[0].message`; an absent/null `tool_calls` array is the empty
list (only its length and elements are ever read). -/
structure OAIMessage where
  content : Option Str
  toolCalls : List OAIToolCall
deriving Repr, DecidableEq

/-- A complete dialect_B/C response body. -/
structure OAIBody where
  message : Option OAIMessage
  finishReason : Option Str
  promptTokens : Option Nat
  completionTokens : Option Nat
deriving Repr, DecidableEq

/-- `parseOpenAIResponse` (part_008 lines 648–692), restricted to the
unified fields. -/
def parseOpenAIResponse (dec : Str → Option Json) (mode : Mode) (data : OAIBody) : Unified :=
  match data.message with
  | none =>
    { text := some NO_RESPONSE, toolUse := none, reasoning := none, mode := mode,
      inputTokens := none, outputTokens := none, responseId := none }
  | some msg =>
    if data.finishReason = some TOOL_CALLS ∧ msg.toolCalls ≠ [] then
      { text := msg.content
        toolUse := some (msg.toolCalls.map (fun tc =>
          ({ id := some tc.id
             name := some tc.name
             input := (dec tc.args).getD Json.emptyObj } : UToolCall)))
        reasoning := (extractReasoningAndText (msg.content.getD [])).reasoning
        mode := mode
        inputTokens := data.promptTokens
        outputTokens := data.completionTokens
        responseId := none }
    else
      { text := some (extractReasoningAndText (msg.content.getD NO_RESPONSE)).text
        toolUse := none
        reasoning := (extractReasoningAndText (msg.content.getD NO_RESPONSE)).reasoning
        mode := mode
        inputTokens := data.promptTokens
        outputTokens := data.completionTokens
        responseId := none }

/-- One `delta.tool_calls[j]` fragment. -/
structure OAIDeltaToolCall where
  index : Nat
  id : Option Str
  name : Option Str
  args : Option Str
deriving Repr, DecidableEq

/-- One SSE data object as read by `streamOpenAI` (lines 242–291):
`choices` presence, the delta fields, and an optional `usage` pair. -/
structure OAIChunk where
  hasChoices : Bool
  reasoningContent : Option Str
  content : Option Str
  toolCalls : List OAIDeltaToolCall
  usage : Option (Option Nat × Option Nat)
deriving Repr, DecidableEq

/-- One accumulating entry of `toolMap` (line 272). -/
structure OAIEntryAcc where
  id : Str
  name : Str
  args : Str
deriving Repr, DecidableEq

/-- `streamOpenAI`'s mutable state (lines 234–239). -/
structure OAIState where
  accText : Str
  accReason : Str
  toolMap : List (Nat × OAIEntryAcc)
  inputTokens : Option Nat
  outputTokens : Option Nat
deriving Repr, DecidableEq

/-- Lines 270–282: get-or-create the entry for `tc.index`, then append
whichever of id/name/arguments the fragment carries (JS falsy '' and
absent both append nothing). -/
def oaiToolDelta (m : List (Nat × OAIEntryAcc)) (tc : OAIDeltaToolCall) :
    List (Nat × OAIEntryAcc) :=
  let entry := (mapGet m tc.index).getD { id := [], name := [], args := [] }
  mapSet m tc.index
    { id := entry.id ++ tc.id.getD []
      name := entry.name ++ tc.name.getD []
      args := entry.args ++ tc.args.getD [] }

/-- `usage` update `x ?? old` (lines 246–248, 287–289). -/
def oaiUsage (st : OAIState) (u : Option (Option Nat × Option Nat)) : OAIState :=
  match u with
  | some (p, c) =>
    { st with inputTokens := p.or st.inputTokens, outputTokens := c.or st.outputTokens }
  | none => st

/-- The `onEvent` body of `streamOpenAI` (lines 242–291). -/
def oaiStep (st : OAIState) (e : OAIChunk) : OAIState :=
  if e.hasChoices = false then
    oaiUsage st e.usage
  else
    let st1 := match e.reasoningContent with
      | some rc => if rc ≠ [] then { st with accReason := st.accReason ++ rc } else st
      | none => st
    let st2 := match e.content with
      | some c => if c ≠ [] then { st1 with accText := st1.accText ++ c } else st1
      | none => st1
    let st3 := { st2 with toolMap := e.toolCalls.foldl oaiToolDelta st2.toolMap }
    oaiUsage st3 e.usage

/-- The `onEnd` body of `streamOpenAI` (lines 293–347), restricted to the
unified fields. -/
def oaiFinalize (dec : Str → Option Json) (mode : Mode) (st : OAIState) : Unified :=
  let rawReasoning := if st.accReason = [] then none else some st.accReason
  let extracted := extractReasoningAndText st.accText
  let finalText := match rawReasoning with
    | some _ => st.accText
    | none => extracted.text
  let finalReasoning := match rawReasoning with
    | some r => some r
    | none => extracted.reasoning
  let toolUse : Option (List UToolCall) :=
    if st.toolMap.length ≠ 0 then
      some (st.toolMap.map (fun kv =>
        ({ id := some kv.2.id
           name := some kv.2.name
           input := (dec kv.2.args).getD Json.emptyObj } : UToolCall)))
    else none
  { text := if finalText ≠ [] then some finalText
            else match toolUse with
              | some l => if l.length ≠ 0 then none else some NO_RESPONSE
              | none => some NO_RESPONSE
    toolUse := toolUse
    reasoning := finalReasoning
    mode := mode
    inputTokens := st.inputTokens
    outputTokens := st.outputTokens
    responseId := none }

/-- The result `streamOpenAI` resolves with, as a fold over the chunk
list. -/
def streamOpenAIResult (dec : Str → Option Json) (mode : Mode)
    (events : List OAIChunk) : Unified :=
  oaiFinalize dec mode (events.foldl oaiStep
    { accText := [], accReason := [], toolMap := [], inputTokens := none,
      outputTokens := none })

/-- Modelled from the spec: the tool-call slice of `fixtureStreamOf` for
dialect_B/C — one fragment per call, indexed consecutively, carrying the
full id/name/arguments. -/
def oaiEncodeTools : Nat → List OAIToolCall → List OAIChunk
  | _, [] => []
  | i, tc :: rest =>
      { hasChoices := true, reasoningContent := none, content := none,
        toolCalls := [{ index := i, id := some tc.id, name := some tc.name,
                        args := some tc.args }],
        usage := none } :: oaiEncodeTools (i + 1) rest

/-- Modelled from the spec: `fixtureStreamOf` for dialect_B/C — a content
delta, the tool-call fragments, and a trailing usage-only chunk; a
missing message streams no events. -/
def fixtureStreamOfOpenAI (body : OAIBody) : List OAIChunk :=
  match body.message with
  | none => []
  | some msg =>
    ({ hasChoices := true, reasoningContent := none, content := msg.content,
       toolCalls := [], usage := none } : OAIChunk)
      :: (oaiEncodeTools 0 msg.toolCalls
        ++ [{ hasChoices := false, reasoningContent := none, content := none,
              toolCalls := [],
              usage := some (body.promptTokens, body.completionTokens) }])

/-- A well-formed dialect_B/C fixture: `finish_reason` is `tool_calls`
exactly when the call list is nonempty, the content string is never the
empty string, and in the tool case the content (when present) carries no
reasoning markup, i.e. the extractor maps it to itself. -/
def OAIWf (body : OAIBody) : Prop :=
  (∀ msg, body.message = some msg →
    (body.finishReason = some TOOL_CALLS ↔ msg.toolCalls ≠ [])) ∧
  (∀ msg, body.message = some msg → msg.content ≠ some []) ∧
  (∀ msg c, body.message = some msg → msg.toolCalls ≠ [] → msg.content = some c →
    (extractReasoningAndText c).text = c)

/-! ## dialect_D (lmstudio-v1): parser, stream machine, fixture encoder -/

/-- One item of the typed `output` array.  The `reasoning` constructor
covers both the `reasoning` and `thinking` type tags (the parser treats
them identically); `toolCall` items are opaque server-side records. -/
inductive V1Output
  | message (content : Str)
  | reasoning (content : Str)
  | toolCall (raw : Str)
  | other (raw : Str)
deriving Repr, DecidableEq

/-- A complete dialect_D response body.  `inputTokens`/`outputTokens`
stand for the fixed-priority merge of the several possible usage-field
locations (lines 721–728), which does not influence text/reasoning/
toolUse. -/
structure V1Body where
  output : List V1Output
  responseId : Option Str
  inputTokens : Option Nat
  outputTokens : Option Nat
deriving Repr, DecidableEq

def v1MsgBlocks (outputs : List V1Output) : List Str :=
  outputs.filterMap (fun o => match o with
    | V1Output.message c => some c
    | _ => none)

/-- `parseLMStudioV1Response` (part_008 lines 707–740), restricted to the
unified fields: the text is the LAST message block. -/
def parseLMStudioV1Response (data : V1Body) : Unified :=
  { text := some ((v1MsgBlocks data.output).getLast?.getD NO_RESPONSE)
    toolUse := none
    reasoning := data.output.findSome? (fun o => match o with
      | V1Output.reasoning c => some c
      | _ => none)
    mode := Mode.lmstudioV1
    inputTokens := data.inputTokens
    outputTokens := data.outputTokens
    responseId := data.responseId }

/-- The dialect_D event vocabulary (part_008 lines 459–466).  `lifecycle`
stands for the whole family of silently ignored events. -/
inductive V1Event
  | messageDelta (content : Option Str)
  | reasoningDelta (content : Option Str)
  | toolCallStart (tool : Option Str)
  | chatEnd (result : Option V1Body)
  | errorEvent (msg : Str)
  | lifecycle
deriving Repr, DecidableEq

/-- The `onEvent` switch of `streamLMStudioV1` (lines 472–517): only the
first `chat.end` with a payload resolves; everything else only emits
chunks. -/
def v1Step (st : Option Unified) (e : V1Event) : Option Unified :=
  match e with
  | .chatEnd r =>
    match st with
    | some _ => st
    | none =>
      match r with
      | none => st
      | some body => some (parseLMStudioV1Response body)
  | _ => st

/-- The result `streamLMStudioV1` resolves with: the parsed `chat.end`
payload, or the degraded fallback of `onEnd` (lines 519–534). -/
def streamLMStudioV1Result (events : List V1Event) : Unified :=
  (events.foldl v1Step none).getD
    { text := some ("[stream ended without response]".data)
      toolUse := none
      reasoning := none
      mode := Mode.lmstudioV1
      inputTokens := none
      outputTokens := none
      responseId := none }

/-- Modelled from the spec: `fixtureStreamOf` for dialect_D — live deltas
for display, then the terminal `chat.end` carrying the entire
non-streaming payload, then ignored lifecycle traffic. -/
def fixtureStreamOfLMStudioV1 (body : V1Body) : List V1Event :=
  (v1MsgBlocks body.output).map (fun c => V1Event.messageDelta (some c))
    ++ [V1Event.chatEnd (some body), V1Event.lifecycle]

/-! Concrete fixtures and a concrete JSON codec for the witnesses. -/

def encCanon : Json → Str := Json.canon

def decCanon : Str → Option Json := fun s => some { canon := s }

def anthFixture : AnthBody :=
  { content := [AnthBlock.thinking ("why".data), AnthBlock.text ("hi".data),
                AnthBlock.toolUse ("t1".data) ("write".data) { canon := "\x7b\x7d".data }]
    stopReason := some TOOL_USE
    inputTokens := some 10
    outputTokens := some 5 }

def oaiToolFixtureMsg : OAIMessage :=
  { content := none
    toolCalls := [{ id := "c1".data, name := "calc".data, args := "\x7b\x7d".data }] }

def oaiToolFixture : OAIBody :=
  { message := some oaiToolFixtureMsg
    finishReason := some TOOL_CALLS
    promptTokens := some 7
    completionTokens := some 2 }

def oaiTextFixture : OAIBody :=
  { message := some { content := some ("hey".data), toolCalls := [] }
    finishReason := some ("stop".data)
    promptTokens := none
    completionTokens := some 3 }

def v1Fixture : V1Body :=
  { output := [V1Output.reasoning ("mull".data), V1Output.message ("hello".data)]
    responseId := some ("resp1".data)
    inputTokens := some 4
    outputTokens := some 6 }

/-- Key-freshness predicates and an index-zipper for reasoning about
the JS `Map` accumulators. -/
def keysNe {α : Type} (m : List (Nat × α)) (i : Nat) : Prop := ∀ kv ∈ m, kv.1 ≠ i

def keysBelow {α : Type} (m : List (Nat × α)) (i : Nat) : Prop := ∀ kv ∈ m, kv.1 < i

def zipIdxFrom {α : Type} : Nat → List α → List (Nat × α)
  | _, [] => []
  | i, b :: rest => (i, b) :: zipIdxFrom (i + 1) rest

/-- The accumulator image of a complete tool call. -/
def oaiAccOf (tc : OAIToolCall) : OAIEntryAcc :=
  { id := tc.id, name := tc.name, args := tc.args }

/-! ## Theorems -/

/-- C2: Mode detection is a pure total function of the endpoint URL
(`detectMode` and `detectModeClient` are Lean functions into the
four-variant `Mode` type, so one dialect per URL and determinism hold by
construction); every URL containing `/v1/messages` or `anthropic.com`
yields `anthropic`; every URL matching none of the listed patterns yields
`openai`; and the protocol layer's detector and the client-side detector
agree on every URL. -/
theorem claim2_mode_detection (url : Str) :
    detectMode url = detectModeClient url ∧
    ((strIncludes V1_MESSAGES url = true ∨ strIncludes ANTHROPIC_COM url = true) →
      detectMode url = .anthropic) ∧
    (strIncludes V1_MESSAGES url = false → strIncludes ANTHROPIC_COM url = false →
      strIncludes API_V1_CHAT url = false → strIncludes API_V0 url = false →
      detectMode url = .openai) := by
  cases h1 : strIncludes V1_MESSAGES url <;>
    cases h2 : strIncludes ANTHROPIC_COM url <;>
      cases h3 : strIncludes API_V1_CHAT url <;>
        cases h4 : strIncludes API_V0 url <;>
          simp [detectMode, detectModeClient, h1, h2, h3, h4]

/-- Witness for C2 at concrete URLs. -/
theorem claim2_mode_detection_witness :
    detectMode ("https://api.anthropic.com/v1/messages".data) = .anthropic ∧
    detectMode ("http://localhost:1234/v1/chat/completions".data) = .openai :=
  ⟨(claim2_mode_detection _).2.1 (Or.inl (by decide)),
   (claim2_mode_detection _).2.2 (by decide) (by decide) (by decide) (by decide)⟩

theorem v1_fold_deltas (cs : List Str) :
    (cs.map (fun c => V1Event.messageDelta (some c))).foldl v1Step none = none := by
  induction cs with
  | nil => rfl
  | cons c rest ih => exact ih

/-- dialect_D stream/parse agreement: the `chat.end` payload is handed to
the non-streaming parser, so the results agree on every field. -/
theorem v1_equiv (body : V1Body) :
    streamLMStudioV1Result (fixtureStreamOfLMStudioV1 body)
      = parseLMStudioV1Response body := by
  unfold streamLMStudioV1Result fixtureStreamOfLMStudioV1
  rw [List.foldl_append, v1_fold_deltas]
  rfl

theorem keysNe_of_below {α : Type} {m : List (Nat × α)} {i : Nat}
    (h : keysBelow m i) : keysNe m i :=
  fun kv hkv => Nat.ne_of_lt (h kv hkv)

theorem keysBelow_snoc {α : Type} {m : List (Nat × α)} {i : Nat} (v : α)
    (h : keysBelow m i) : keysBelow (m ++ [(i, v)]) (i + 1) := by
  intro kv hkv
  rcases List.mem_append.mp hkv with h1 | h1
  · exact Nat.lt_succ_of_lt (h kv h1)
  · rcases List.mem_singleton.mp h1 with rfl
    exact Nat.lt_succ_self i

theorem mapGet_of_keysNe {α : Type} {m : List (Nat × α)} {i : Nat}
    (h : keysNe m i) : mapGet m i = none := by
  induction m with
  | nil => rfl
  | cons kv rest ih =>
    obtain ⟨k, v⟩ := kv
    simp only [mapGet]
    rw [if_neg (h (k, v) (List.mem_cons_self _ _))]
    exact ih fun x hx => h x (List.mem_cons_of_mem _ hx)

theorem mapSet_of_keysNe {α : Type} {m : List (Nat × α)} {i : Nat} (v : α)
    (h : keysNe m i) : mapSet m i v = m ++ [(i, v)] := by
  induction m with
  | nil => rfl
  | cons kv rest ih =>
    obtain ⟨k, w⟩ := kv
    simp only [mapSet]
    rw [if_neg (h (k, w) (List.mem_cons_self _ _))]
    rw [ih fun x hx => h x (List.mem_cons_of_mem _ hx)]
    rfl

theorem mapGet_append_last {α : Type} {m : List (Nat × α)} {i : Nat} (v : α)
    (h : keysNe m i) : mapGet (m ++ [(i, v)]) i = some v := by
  induction m with
  | nil => simp [mapGet]
  | cons kv rest ih =>
    obtain ⟨k, w⟩ := kv
    simp only [List.cons_append, mapGet]
    rw [if_neg (h (k, w) (List.mem_cons_self _ _))]
    exact ih fun x hx => h x (List.mem_cons_of_mem _ hx)

theorem mapSet_append_last {α : Type} {m : List (Nat × α)} {i : Nat} (v w : α)
    (h : keysNe m i) : mapSet (m ++ [(i, w)]) i v = m ++ [(i, v)] := by
  induction m with
  | nil => simp [mapSet]
  | cons kv rest ih =>
    obtain ⟨k, u⟩ := kv
    simp only [List.cons_append, mapSet]
    rw [if_neg (h (k, u) (List.mem_cons_self _ _))]
    simp only [List.append_eq]
    rw [ih fun x hx => h x (List.mem_cons_of_mem _ hx)]

theorem zipIdxFrom_map_snd {α β : Type} (g : α → β) :
    ∀ (i : Nat) (l : List α),
      (zipIdxFrom i l).map (fun kv => g kv.2) = l.map g := by
  intro i l
  induction l generalizing i with
  | nil => rfl
  | cons a rest ih => simp [zipIdxFrom, ih]

theorem zipIdxFrom_filterMap_snd {α β : Type} (g : α → Option β) :
    ∀ (i : Nat) (l : List α),
      (zipIdxFrom i l).filterMap (fun kv => g kv.2) = l.filterMap g := by
  intro i l
  induction l generalizing i with
  | nil => rfl
  | cons a rest ih => simp [zipIdxFrom, List.filterMap_cons, ih]

theorem zipIdxFrom_length {α : Type} :
    ∀ (i : Nat) (l : List α), (zipIdxFrom i l).length = l.length := by
  intro i l
  induction l generalizing i with
  | nil => rfl
  | cons a rest ih => simp [zipIdxFrom, ih]

theorem qwen_text_ne (raw : Str) (e : Extracted)
    (h : extractQwenChannels raw = some e) : e.text ≠ [] := by
  unfold extractQwenChannels at h
  split at h
  · exact absurd h (by simp)
  · dsimp only at h
    split at h
    · exact absurd h (by simp)
    · rw [Option.some_inj] at h
      subst h
      dsimp only
      split
      · decide
      · assumption

theorem think_text_ne (raw : Str) (h : raw ≠ []) :
    (extractThinkTags raw).text ≠ [] := by
  unfold extractThinkTags
  rw [if_neg h]
  dsimp only
  split
  · split
    · exact h
    · dsimp only
      split
      · decide
      · assumption
  · exact h

theorem extract_text_ne (raw : Str) (h : raw ≠ []) :
    (extractReasoningAndText raw).text ≠ [] := by
  unfold extractReasoningAndText
  cases hq : extractQwenChannels raw with
  | some e => exact qwen_text_ne raw e hq
  | none => exact think_text_ne raw h

theorem extract_empty : extractReasoningAndText [] = { text := [], reasoning := none } := by
  decide

theorem extract_noresp :
    extractReasoningAndText NO_RESPONSE = { text := NO_RESPONSE, reasoning := none } := by
  decide

theorem oai_fold_tools (tcs : List OAIToolCall) :
    ∀ (i : Nat) (st : OAIState), keysBelow st.toolMap i →
    (oaiEncodeTools i tcs).foldl oaiStep st
      = { st with toolMap := st.toolMap ++ zipIdxFrom i (tcs.map oaiAccOf) } := by
  induction tcs with
  | nil =>
    intro i st h
    simp only [oaiEncodeTools, List.foldl_nil, List.map_nil, zipIdxFrom, List.append_nil]
  | cons tc rest ih =>
    intro i st h
    have hne := keysNe_of_below h
    simp only [oaiEncodeTools, List.foldl_cons, List.map_cons]
    have hstep : oaiStep st
        ({ hasChoices := true, reasoningContent := none, content := none,
           toolCalls := [{ index := i, id := some tc.id, name := some tc.name,
                           args := some tc.args }],
           usage := none } : OAIChunk)
        = { st with toolMap := st.toolMap ++ [(i, oaiAccOf tc)] } := by
      simp only [oaiStep, oaiUsage, oaiToolDelta, List.foldl_cons, List.foldl_nil]
      rw [mapGet_of_keysNe hne]
      simp only [Option.getD_none, Option.getD_some, List.nil_append]
      rw [mapSet_of_keysNe _ hne]
      simp [oaiAccOf]
    rw [hstep]
    rw [ih (i + 1) _ (by exact keysBelow_snoc _ h)]
    simp [zipIdxFrom, List.append_assoc]

theorem oai_content_step (msg : OAIMessage) (hc : msg.content ≠ some []) :
    oaiStep
      { accText := [], accReason := [], toolMap := [], inputTokens := none,
        outputTokens := none }
      { hasChoices := true, reasoningContent := none, content := msg.content,
        toolCalls := [], usage := none }
      = { accText := msg.content.getD [], accReason := [], toolMap := [],
          inputTokens := none, outputTokens := none } := by
  cases hcc : msg.content with
  | none => rfl
  | some c =>
    have hcne : c ≠ [] := by
      rintro rfl
      exact hc hcc
    simp [oaiStep, oaiUsage, hcne]

/-- dialect_B/C stream/parse agreement on text, reasoning and toolUse,
for every well-formed fixture and both modes that share this code path. -/
theorem oai_equiv (dec : Str → Option Json) (mode : Mode) (body : OAIBody)
    (wf : OAIWf body) :
    (streamOpenAIResult dec mode (fixtureStreamOfOpenAI body)).text
        = (parseOpenAIResponse dec mode body).text ∧
    (streamOpenAIResult dec mode (fixtureStreamOfOpenAI body)).reasoning
        = (parseOpenAIResponse dec mode body).reasoning ∧
    (streamOpenAIResult dec mode (fixtureStreamOfOpenAI body)).toolUse
        = (parseOpenAIResponse dec mode body).toolUse := by
  obtain ⟨wf1, wf2, wf3⟩ := wf
  cases hmsg : body.message with
  | none =>
    unfold streamOpenAIResult fixtureStreamOfOpenAI parseOpenAIResponse
    rw [hmsg]
    exact ⟨rfl, rfl, rfl⟩
  | some msg =>
    have hc := wf2 msg hmsg
    have hfold : (fixtureStreamOfOpenAI body).foldl oaiStep
        { accText := [], accReason := [], toolMap := [], inputTokens := none,
          outputTokens := none }
        = { accText := msg.content.getD [], accReason := [],
            toolMap := zipIdxFrom 0 (msg.toolCalls.map oaiAccOf),
            inputTokens := body.promptTokens,
            outputTokens := body.completionTokens } := by
      unfold fixtureStreamOfOpenAI
      rw [hmsg]
      simp only [List.foldl_cons]
      rw [oai_content_step msg hc, List.foldl_append]
      rw [oai_fold_tools msg.toolCalls 0 _
        (by intro kv hkv; exact absurd hkv (List.not_mem_nil kv))]
      simp [oaiStep, oaiUsage]
    unfold streamOpenAIResult
    rw [hfold]
    unfold parseOpenAIResponse
    rw [hmsg]
    dsimp only
    by_cases htc : msg.toolCalls = []
    · have hfin : ¬(body.finishReason = some TOOL_CALLS ∧ msg.toolCalls ≠ []) := by
        rintro ⟨_, hne⟩
        exact hne htc
      rw [if_neg hfin]
      cases hcc : msg.content with
      | none =>
        refine ⟨?_, ?_, ?_⟩ <;>
          simp [oaiFinalize, hcc, htc, zipIdxFrom, extract_empty, extract_noresp]
      | some c =>
        have hcne : c ≠ [] := by
          rintro rfl
          exact hc hcc
        refine ⟨?_, ?_, ?_⟩ <;>
          simp [oaiFinalize, hcc, htc, zipIdxFrom, extract_text_ne c hcne]
    · have hfin : body.finishReason = some TOOL_CALLS := (wf1 msg hmsg).mpr htc
      rw [if_pos ⟨hfin, htc⟩]
      have hlen : (zipIdxFrom 0 (msg.toolCalls.map oaiAccOf)).length
          = msg.toolCalls.length := by
        rw [zipIdxFrom_length, List.length_map]
      have hne0 : msg.toolCalls.length ≠ 0 := fun h0 => htc (List.length_eq_zero.mp h0)
      have htu : ∀ (i : Nat) (ts : List OAIToolCall),
          (zipIdxFrom i (ts.map oaiAccOf)).map (fun kv =>
            ({ id := some kv.2.id, name := some kv.2.name,
               input := (dec kv.2.args).getD Json.emptyObj } : UToolCall))
          = ts.map (fun tc =>
            ({ id := some tc.id, name := some tc.name,
               input := (dec tc.args).getD Json.emptyObj } : UToolCall)) := by
        intro i ts
        induction ts generalizing i with
        | nil => rfl
        | cons t rest ih => simp [zipIdxFrom, oaiAccOf, ih]
      cases hcc : msg.content with
      | none =>
        refine ⟨?_, ?_, ?_⟩ <;>
          simp [oaiFinalize, hcc, extract_empty, hlen, hne0, htu 0 msg.toolCalls]
      | some c =>
        have hcne : c ≠ [] := by
          rintro rfl
          exact hc hcc
        have hid := wf3 msg c hmsg htc hcc
        refine ⟨?_, ?_, ?_⟩ <;>
          simp [oaiFinalize, hcc, hlen, hne0, htu 0 msg.toolCalls, hid, hcne]

theorem anth_fold_block (enc : Json → Str) (i : Nat) (b : AnthBlock) (st : AnthState)
    (h : keysNe st.blocks i) :
    (anthEncodeBlock enc i b).foldl anthStep st
      = { st with blocks := st.blocks ++ [(i, anthSBlock enc b)] } := by
  cases b with
  | text t =>
    simp only [anthEncodeBlock, List.foldl_cons, List.foldl_nil, anthStep]
    rw [mapSet_of_keysNe _ h, mapGet_append_last _ h]
    dsimp only
    rw [mapSet_append_last _ _ h]
    simp [anthSBlock]
  | thinking t =>
    simp only [anthEncodeBlock, List.foldl_cons, List.foldl_nil, anthStep]
    rw [mapSet_of_keysNe _ h, mapGet_append_last _ h]
    dsimp only
    rw [mapSet_append_last _ _ h]
    simp [anthSBlock]
  | toolUse id name inp =>
    simp only [anthEncodeBlock, List.foldl_cons, List.foldl_nil, anthStep]
    rw [mapSet_of_keysNe _ h, mapGet_append_last _ h]
    dsimp only
    rw [mapSet_append_last _ _ h]
    simp [anthSBlock]

theorem anth_fold_blocks (enc : Json → Str) (bs : List AnthBlock) :
    ∀ (i : Nat) (st : AnthState), keysBelow st.blocks i →
    (anthEncodeBlocks enc i bs).foldl anthStep st
      = { st with blocks := st.blocks ++ zipIdxFrom i (bs.map (anthSBlock enc)) } := by
  induction bs with
  | nil =>
    intro i st h
    simp only [anthEncodeBlocks, List.foldl_nil, List.map_nil, zipIdxFrom, List.append_nil]
  | cons b rest ih =>
    intro i st h
    simp only [anthEncodeBlocks, List.foldl_append, List.map_cons]
    rw [anth_fold_block enc i b st (keysNe_of_below h)]
    rw [ih (i + 1) _ (by exact keysBelow_snoc _ h)]
    simp [zipIdxFrom, List.append_assoc]

theorem anth_fold_events (enc : Json → Str) (body : AnthBody) :
    (fixtureStreamOfAnthropic enc body).foldl anthStep
      { blocks := [], inputTokens := none, outputTokens := none }
      = { blocks := zipIdxFrom 0 (body.content.map (anthSBlock enc)),
          inputTokens := body.inputTokens, outputTokens := body.outputTokens } := by
  unfold fixtureStreamOfAnthropic
  simp only [List.foldl_cons, List.foldl_append, anthStep]
  rw [anth_fold_blocks enc body.content 0 _
    (by intro kv hkv; exact absurd hkv (List.not_mem_nil kv))]
  cases ho : body.outputTokens with
  | none => simp [anthStep]
  | some o => simp [anthStep]

theorem zipIdxFrom_key_ge {α : Type} : ∀ (i : Nat) (l : List α) (kv : Nat × α),
    kv ∈ zipIdxFrom i l → i ≤ kv.1 := by
  intro i l
  induction l generalizing i with
  | nil =>
    intro kv hkv
    exact absurd hkv (List.not_mem_nil kv)
  | cons a rest ih =>
    intro kv hkv
    rcases List.mem_cons.mp hkv with rfl | hm
    · exact Nat.le_refl i
    · exact Nat.le_trans (Nat.le_succ i) (ih (i + 1) kv hm)

theorem zipIdxFrom_sorted {α : Type} : ∀ (i : Nat) (l : List α),
    List.Sorted (fun a b : Nat × α => a.1 ≤ b.1) (zipIdxFrom i l) := by
  intro i l
  induction l generalizing i with
  | nil => exact List.sorted_nil
  | cons a rest ih =>
    rw [zipIdxFrom, List.sorted_cons]
    exact ⟨fun kv hkv => Nat.le_trans (Nat.le_succ i) (zipIdxFrom_key_ge (i + 1) rest kv hkv),
      ih (i + 1)⟩

theorem sortBlocks_zipIdxFrom (i : Nat) (l : List SBlock) :
    sortBlocks (zipIdxFrom i l) = zipIdxFrom i l :=
  List.Sorted.insertionSort_eq (zipIdxFrom_sorted i l)

theorem anth_textParts (enc : Json → Str) : ∀ (i : Nat) (bs : List AnthBlock),
    (zipIdxFrom i (bs.map (anthSBlock enc))).filterMap (fun kv => match kv.2.kind with
      | BlockKind.text => some kv.2.content
      | _ => none)
    = anthTextBlocks bs := by
  intro i bs
  induction bs generalizing i with
  | nil => rfl
  | cons b rest ih =>
    cases b <;>
      simp [zipIdxFrom, anthSBlock, List.filterMap_cons, anthTextBlocks, ih]

theorem anth_thinkParts (enc : Json → Str) : ∀ (i : Nat) (bs : List AnthBlock),
    (zipIdxFrom i (bs.map (anthSBlock enc))).filterMap (fun kv => match kv.2.kind with
      | BlockKind.thinking => some kv.2.content
      | _ => none)
    = anthThinkBlocks bs := by
  intro i bs
  induction bs generalizing i with
  | nil => rfl
  | cons b rest ih =>
    cases b <;>
      simp [zipIdxFrom, anthSBlock, List.filterMap_cons, anthThinkBlocks, ih]

theorem anth_toolParts (enc : Json → Str) (dec : Str → Option Json) :
    ∀ (i : Nat) (bs : List AnthBlock),
    (∀ b ∈ bs, ∀ id name inp, b = AnthBlock.toolUse id name inp →
      dec (enc inp) = some inp) →
    (zipIdxFrom i (bs.map (anthSBlock enc))).filterMap (fun kv => match kv.2.kind with
      | BlockKind.toolUse =>
          some ({ id := kv.2.id
                  name := kv.2.name
                  input := (dec kv.2.content).getD Json.emptyObj } : UToolCall)
      | _ => none)
    = anthToolUses bs := by
  intro i bs
  induction bs generalizing i with
  | nil => intro _; rfl
  | cons b rest ih =>
    intro hrt
    have hrest := fun b hb => hrt b (List.mem_cons_of_mem _ hb)
    cases b with
    | text t =>
      simpa [zipIdxFrom, anthSBlock, List.filterMap_cons, anthToolUses]
        using ih (i + 1) hrest
    | thinking t =>
      simpa [zipIdxFrom, anthSBlock, List.filterMap_cons, anthToolUses]
        using ih (i + 1) hrest
    | toolUse id name inp =>
      have hdec := hrt (AnthBlock.toolUse id name inp) (List.mem_cons_self _ _)
        id name inp rfl
      simp only [zipIdxFrom, anthSBlock, List.map_cons, List.filterMap_cons]
      rw [ih (i + 1) hrest]
      simp [anthToolUses, hdec]

theorem findSome?_eq_head?_filterMap {α β : Type} (f : α → Option β) (l : List α) :
    l.findSome? f = (l.filterMap f).head? := by
  induction l with
  | nil => rfl
  | cons a rest ih =>
    cases h : f a with
    | none =>
      rw [List.findSome?_cons, List.filterMap_cons, h]
      exact ih
    | some b =>
      rw [List.findSome?_cons, List.filterMap_cons, h]
      rfl

theorem list_len_le_one {α : Type} (l : List α) (h : l.length ≤ 1) :
    l = [] ∨ ∃ a, l = [a] := by
  cases l with
  | nil => exact Or.inl rfl
  | cons a rest =>
    cases rest with
    | nil => exact Or.inr ⟨a, rfl⟩
    | cons b r2 => simp at h

theorem anthFirstText_eq (content : List AnthBlock) :
    anthFirstText content = (anthTextBlocks content).head? :=
  findSome?_eq_head?_filterMap _ _

/-- dialect_A stream/parse agreement on text, reasoning and toolUse, for
every well-formed fixture. -/
theorem anth_equiv (enc : Json → Str) (dec : Str → Option Json) (body : AnthBody)
    (wf : AnthWf enc dec body) :
    (streamAnthropicResult dec (fixtureStreamOfAnthropic enc body)).text
        = (parseAnthropicResponse body).text ∧
    (streamAnthropicResult dec (fixtureStreamOfAnthropic enc body)).reasoning
        = (parseAnthropicResponse body).reasoning ∧
    (streamAnthropicResult dec (fixtureStreamOfAnthropic enc body)).toolUse
        = (parseAnthropicResponse body).toolUse := by
  obtain ⟨wtc, wtne, wkc, wktrim, wiff, wrt⟩ := wf
  have hstream : streamAnthropicResult dec (fixtureStreamOfAnthropic enc body)
      = { text := if (anthTextBlocks body.content).flatten = []
                    then (if anthToolUses body.content = [] then some NO_RESPONSE else none)
                    else some (anthTextBlocks body.content).flatten
          toolUse := if anthToolUses body.content = [] then none
                     else some (anthToolUses body.content)
          reasoning := if (anthThinkBlocks body.content).flatten = [] then none
                       else some (anthThinkBlocks body.content).flatten
          mode := Mode.anthropic
          inputTokens := body.inputTokens
          outputTokens := body.outputTokens
          responseId := none } := by
    unfold streamAnthropicResult
    rw [anth_fold_events]
    unfold anthFinalize
    dsimp only
    rw [sortBlocks_zipIdxFrom]
    rw [anth_textParts, anth_thinkParts, anth_toolParts enc dec 0 body.content wrt]
  have hreason : (if (anthThinkBlocks body.content).flatten = [] then none
      else some (anthThinkBlocks body.content).flatten)
      = anthThinkingText body.content := by
    unfold anthThinkingText
    rcases list_len_le_one _ wkc with hK | ⟨k, hK⟩
    · rw [hK]
      rfl
    · rw [hK]
      dsimp only
      have hk := wktrim k (by rw [hK]; exact List.mem_singleton_self k)
      rw [show joinSepNL [k] = k from rfl, hk]
      simp
  rw [hstream]
  unfold parseAnthropicResponse
  by_cases hstop : body.stopReason = some TOOL_USE
  · rw [if_pos hstop]
    have hUne : anthToolUses body.content ≠ [] := wiff.mp hstop
    refine ⟨?_, ?_, ?_⟩
    · show _ = anthFirstText body.content
      rw [anthFirstText_eq]
      rcases list_len_le_one _ wtc with hA | ⟨t, hA⟩
      · rw [hA]
        simp [hUne]
      · have ht := wtne t (by rw [hA]; exact List.mem_singleton_self t)
        rw [hA]
        simp [ht]
    · exact hreason
    · show _ = some (anthToolUses body.content)
      simp [hUne]
  · rw [if_neg hstop]
    have hU : anthToolUses body.content = [] := by
      by_contra hne
      exact hstop (wiff.mpr hne)
    refine ⟨?_, ?_, ?_⟩
    · show _ = some ((anthFirstText body.content).getD NO_RESPONSE)
      rw [anthFirstText_eq]
      rcases list_len_le_one _ wtc with hA | ⟨t, hA⟩
      · rw [hA]
        simp [hU]
      · have ht := wtne t (by rw [hA]; exact List.mem_singleton_self t)
        rw [hA]
        simp [ht]
    · exact hreason
    · simp [hU]

theorem runLoopAux_steps (env : LoopEnv) (cfg : LoopCfg) :
    ∀ (fuel step : Nat) (s : Session) (lm : List Entry) (acc : List CallRecord),
    ∃ k, k ≤ fuel ∧
      (runLoopAux env cfg fuel step s lm acc).calls.map (fun c => c.step)
        = acc.map (fun c => c.step) ++ List.range' step k := by
  intro fuel
  induction fuel with
  | zero =>
    intro step s lm acc
    exact ⟨0, Nat.le_refl 0, by simp [runLoopAux]⟩
  | succ fuel ih =>
    intro step s lm acc
    cases hab : env.abortAt step with
    | true => exact ⟨0, Nat.zero_le _, by simp [runLoopAux, hab]⟩
    | false =>
      rw [runLoopAux]
      simp only [hab, Bool.false_eq_true, if_false]
      split
      · exact ⟨1, by omega, by simp [List.range'_succ]⟩
      · split
        · exact ⟨1, by omega, by simp [List.range'_succ]⟩
        · next r heq htu =>
          obtain ⟨k, hk, hmap⟩ := ih (step + 1)
            (loopToolTurn env cfg step (noteResultState cfg s r) lm r).1
            (loopToolTurn env cfg step (noteResultState cfg s r) lm r).2
            (acc ++ [{ step := step, tools := loopTools cfg step }])
          refine ⟨k + 1, by omega, ?_⟩
          rw [hmap]
          simp [List.range'_succ]

theorem runLoopAux_calls_len (env : LoopEnv) (cfg : LoopCfg)
    (fuel step : Nat) (s : Session) (lm : List Entry) (acc : List CallRecord) :
    acc.length ≤ (runLoopAux env cfg fuel step s lm acc).calls.length ∧
    (runLoopAux env cfg fuel step s lm acc).calls.length ≤ acc.length + fuel := by
  obtain ⟨k, hk, hmap⟩ := runLoopAux_steps env cfg fuel step s lm acc
  have hlen := congrArg List.length hmap
  simp only [List.length_map, List.length_append, List.length_range'] at hlen
  omega

theorem loopTools_at_cap (cfg : LoopCfg) (step : Nat) (h : step = cfg.stepCap) :
    loopTools cfg step = [] := by
  simp [loopTools, h]

theorem runLoopAux_tools_at_cap (env : LoopEnv) (cfg : LoopCfg) :
    ∀ (fuel step : Nat) (s : Session) (lm : List Entry) (acc : List CallRecord),
    (∀ c ∈ acc, c.step = cfg.stepCap → c.tools = []) →
    ∀ c ∈ (runLoopAux env cfg fuel step s lm acc).calls,
      c.step = cfg.stepCap → c.tools = [] := by
  intro fuel
  induction fuel with
  | zero =>
    intro step s lm acc hacc
    simpa [runLoopAux] using hacc
  | succ fuel ih =>
    intro step s lm acc hacc
    have hacc2 : ∀ c ∈ acc ++ [CallRecord.mk step (loopTools cfg step)],
        c.step = cfg.stepCap → c.tools = [] := by
      intro c hc
      rcases List.mem_append.mp hc with h | h
      · exact hacc c h
      · rcases List.mem_singleton.mp h with rfl
        exact fun hstep => loopTools_at_cap cfg step hstep
    cases hab : env.abortAt step with
    | true =>
      rw [runLoopAux]
      simp only [hab, if_true]
      exact hacc
    | false =>
      rw [runLoopAux]
      simp only [hab, Bool.false_eq_true, if_false]
      split
      · exact hacc2
      · split
        · exact hacc2
        · exact ih (step + 1) _ _ _ hacc2

theorem noteResponseId_conversation (s : Session) (r : CallResult) :
    (noteResponseId s r).conversation = s.conversation := by
  unfold noteResponseId
  split <;> rfl

theorem noteResultState_conversation (cfg : LoopCfg) (s : Session) (r : CallResult) :
    (noteResultState cfg s r).conversation = s.conversation := by
  unfold noteResultState
  split
  · rfl
  · split
    · split
      · exact noteResponseId_conversation s r
      · exact noteResponseId_conversation s r
    · exact noteResponseId_conversation s r

theorem finishTouch_conversation (cfg : LoopCfg) (s : Session) (n : Nat) :
    (finishTouch cfg s n).conversation = s.conversation := by
  unfold finishTouch
  split <;> rfl

theorem pushEntries_conversation (cfg : LoopCfg) (s : Session) (lm : List Entry)
    (es : List Entry) :
    ∃ suf, (pushEntries cfg s lm es).1.conversation = s.conversation ++ suf := by
  unfold pushEntries
  split
  · exact ⟨[], by simp⟩
  · exact ⟨es, rfl⟩

theorem loopFinalSession_conversation (cfg : LoopCfg) (s : Session) (r : CallResult) :
    ∃ suf, (loopFinalSession cfg s r).conversation = s.conversation ++ suf := by
  unfold loopFinalSession
  split
  · exact ⟨_, rfl⟩
  · exact ⟨[], by simp⟩

theorem loopToolTurn_conversation (env : LoopEnv) (cfg : LoopCfg) (step : Nat)
    (s : Session) (lm : List Entry) (r : CallResult) :
    ∃ suf, (loopToolTurn env cfg step s lm r).1.conversation = s.conversation ++ suf := by
  unfold loopToolTurn
  obtain ⟨s1, h1⟩ := pushEntries_conversation cfg s lm [loopAssistantEntry r]
  obtain ⟨s2, h2⟩ := pushEntries_conversation cfg
    (pushEntries cfg s lm [loopAssistantEntry r]).1
    (pushEntries cfg s lm [loopAssistantEntry r]).2
    (loopResultEntries env step r)
  exact ⟨s1 ++ s2, by rw [h2, h1, List.append_assoc]⟩

theorem runLoopAux_conversation_mono (env : LoopEnv) (cfg : LoopCfg) :
    ∀ (fuel step : Nat) (s : Session) (lm : List Entry) (acc : List CallRecord),
    ∃ suf, (runLoopAux env cfg fuel step s lm acc).session.conversation
      = s.conversation ++ suf := by
  intro fuel
  induction fuel with
  | zero =>
    intro step s lm acc
    exact ⟨[], by simp [runLoopAux, finishTouch_conversation]⟩
  | succ fuel ih =>
    intro step s lm acc
    cases hab : env.abortAt step with
    | true => exact ⟨[], by simp [runLoopAux, hab, finishTouch_conversation]⟩
    | false =>
      rw [runLoopAux]
      simp only [hab, Bool.false_eq_true, if_false]
      split
      · exact ⟨[], by simp [finishTouch_conversation]⟩
      · next r heq =>
        split
        · rw [finishTouch_conversation]
          obtain ⟨s1, h1⟩ := loopFinalSession_conversation cfg (noteResultState cfg s r) r
          rw [h1, noteResultState_conversation]
          exact ⟨s1, rfl⟩
        · obtain ⟨s2, h2⟩ := ih (step + 1)
            (loopToolTurn env cfg step (noteResultState cfg s r) lm r).1
            (loopToolTurn env cfg step (noteResultState cfg s r) lm r).2
            (acc ++ [{ step := step, tools := loopTools cfg step }])
          obtain ⟨s1, h1⟩ := loopToolTurn_conversation env cfg step
            (noteResultState cfg s r) lm r
          refine ⟨s1 ++ s2, ?_⟩
          rw [h2, h1, noteResultState_conversation, List.append_assoc]

theorem runLoopAux_progress (env : LoopEnv) (cfg : LoopCfg)
    (fuel step : Nat) (s : Session) (lm : List Entry) (acc : List CallRecord)
    (hab : env.abortAt step = false) :
    acc.length + 1 ≤ (runLoopAux env cfg (fuel + 1) step s lm acc).calls.length := by
  rw [runLoopAux]
  simp only [hab, Bool.false_eq_true, if_false]
  split
  · simp
  · split
    · simp
    · next r heq htu =>
      have h := (runLoopAux_calls_len env cfg fuel (step + 1)
        (loopToolTurn env cfg step (noteResultState cfg s r) lm r).1
        (loopToolTurn env cfg step (noteResultState cfg s r) lm r).2
        (acc ++ [{ step := step, tools := loopTools cfg step }])).1
      simpa using h

theorem runLoopAux_heartbeat_session (env : LoopEnv) (cfg : LoopCfg)
    (hhb : cfg.isHeartbeat = true) :
    ∀ (fuel step : Nat) (s : Session) (lm : List Entry) (acc : List CallRecord),
    (runLoopAux env cfg fuel step s lm acc).session = s := by
  have hft : ∀ s n, finishTouch cfg s n = s := by
    intro s n
    simp [finishTouch, hhb]
  have hnr : ∀ s r, noteResultState cfg s r = s := by
    intro s r
    simp [noteResultState, hhb]
  have hfin : ∀ s r, loopFinalSession cfg s r = s := by
    intro s r
    simp [loopFinalSession, hhb]
  have htt : ∀ step s lm r, (loopToolTurn env cfg step s lm r).1 = s := by
    intro step s lm r
    simp [loopToolTurn, pushEntries, hhb]
  intro fuel
  induction fuel with
  | zero =>
    intro step s lm acc
    simp [runLoopAux, hft]
  | succ fuel ih =>
    intro step s lm acc
    cases hab : env.abortAt step with
    | true => simp [runLoopAux, hab, hft]
    | false =>
      rw [runLoopAux]
      simp only [hab, Bool.false_eq_true, if_false]
      split
      · simp [hft]
      · next r heq =>
        split
        · simp [hft, hfin, hnr]
        · rw [ih (step + 1) _ _ _, htt, hnr]

theorem runLoopAux_heartbeat_tools (env : LoopEnv) (cfg : LoopCfg)
    (hhb : cfg.isHeartbeat = true) :
    ∀ (fuel step : Nat) (s : Session) (lm : List Entry) (acc : List CallRecord),
    (∀ c ∈ acc, ∀ t ∈ c.tools, t.name ≠ REEF_POST) →
    ∀ c ∈ (runLoopAux env cfg fuel step s lm acc).calls,
      ∀ t ∈ c.tools, t.name ≠ REEF_POST := by
  have htools : ∀ step, ∀ t ∈ loopTools cfg step, t.name ≠ REEF_POST := by
    intro step t ht
    unfold loopTools at ht
    rcases hc : cfg.useTools && !(step == cfg.stepCap) with _ | _
    · rw [hc] at ht
      simp at ht
    · rw [hc] at ht
      simp only [if_true, hhb] at ht
      have := List.mem_filter.mp ht
      simpa [bne_iff_ne] using this.2
  intro fuel
  induction fuel with
  | zero =>
    intro step s lm acc hacc
    simpa [runLoopAux] using hacc
  | succ fuel ih =>
    intro step s lm acc hacc
    have hacc2 : ∀ c ∈ acc ++ [CallRecord.mk step (loopTools cfg step)],
        ∀ t ∈ c.tools, t.name ≠ REEF_POST := by
      intro c hc
      rcases List.mem_append.mp hc with h | h
      · exact hacc c h
      · rcases List.mem_singleton.mp h with rfl
        exact htools step
    cases hab : env.abortAt step with
    | true =>
      rw [runLoopAux]
      simp only [hab, if_true]
      exact hacc
    | false =>
      rw [runLoopAux]
      simp only [hab, Bool.false_eq_true, if_false]
      split
      · exact hacc2
      · split
        · exact hacc2
        · exact ih (step + 1) _ _ _ hacc2
/-- One-step unfolding of the loop on the tool path (no abort, not the
last step, a result with at least one requested tool call, wire call
succeeded). -/
theorem runLoopAux_tool_step (env : LoopEnv) (cfg : LoopCfg)
    (fuel step : Nat) (s : Session) (lm : List Entry) (acc : List CallRecord)
    (hab : env.abortAt step = false) (hlast : (step == cfg.stepCap) = false)
    (r : CallResult) (hres : env.callResult step (loopTools cfg step) = some r)
    (tc : ToolCall) (tcs : List ToolCall) (htu : r.toolUse = some (tc :: tcs)) :
    runLoopAux env cfg (fuel + 1) step s lm acc =
      runLoopAux env cfg fuel (step + 1)
        (loopToolTurn env cfg step (noteResultState cfg s r) lm r).1
        (loopToolTurn env cfg step (noteResultState cfg s r) lm r).2
        (acc ++ [{ step := step, tools := loopTools cfg step }]) := by
  rw [runLoopAux]
  simp [hab, hres, htu, hlast]

theorem estimateTokens_eq (sys : Str) (conv : List ChatMsg) :
    estimateTokens sys conv =
      (sys.length + (conv.map (fun m => msgChars m.content)).sum + 2) / 4 := rfl

theorem slotInv_init (n : Nat) : SlotInv n slotInit :=
  ⟨Nat.le_refl 0, Nat.zero_le n, fun h => absurd rfl h⟩

theorem slotInv_apply (n : Nat) (hn : 1 ≤ n) (s : SlotState) (op : SlotOp)
    (h : SlotInv n s) : SlotInv n (applySlotOp n s op) := by
  obtain ⟨a, ws, hd⟩ := s
  obtain ⟨h1, h2, h3⟩ := h
  simp only at h1 h2 h3
  cases op with
  | acquire w =>
    by_cases hlt : a < n
    · refine ⟨?_, ?_, ?_⟩ <;> simp [applySlotOp, acquireLlmSlot, hlt]
      · exact h1
      · exact hlt
      · intro hws
        exact absurd (h3 hws) (Nat.ne_of_lt hlt)
    · refine ⟨?_, ?_, ?_⟩ <;> simp [applySlotOp, acquireLlmSlot, hlt]
      · exact h1
      · exact h2
      · omega
  | release =>
    cases ws with
    | nil =>
      refine ⟨?_, ?_, ?_⟩ <;> simp [applySlotOp, releaseLlmSlot]
      · omega
      · omega
    | cons nx rest =>
      have han : a = n := h3 (by simp)
      refine ⟨?_, ?_, ?_⟩ <;> simp [applySlotOp, releaseLlmSlot]
      · omega
      · exact h2
      · intro _
        exact han

theorem slotInv_run (n : Nat) (hn : 1 ≤ n) (ops : List SlotOp) (s : SlotState)
    (h : SlotInv n s) : SlotInv n (runSlotOps n ops s) := by
  induction ops generalizing s with
  | nil => exact h
  | cons op rest ih => exact ih _ (slotInv_apply n hn s op h)

/-- C3: for every sequence of acquire/release operations on the admission
controller with slot size `n ≥ 1`, the count of acquired-but-not-released
holders never exceeds `n`; each release hands the slot directly to the
oldest waiter when one exists (the releasing holder leaves, the woken
waiter becomes a holder, `llmActiveSlots` untouched) and otherwise
decrements the in-use count. -/
theorem claim3_admission_controller (n : Nat) (hn : 1 ≤ n) (ops : List SlotOp) :
    (runSlotOps n ops slotInit).holders ≤ n ∧
    (∀ s w rest, s.waiters = w :: rest →
      releaseLlmSlot s =
        ({ active := s.active, waiters := rest, holders := s.holders - 1 + 1 }, some w)) ∧
    (∀ s, s.waiters = [] →
      releaseLlmSlot s =
        ({ active := s.active - 1, waiters := [], holders := s.holders - 1 }, none)) := by
  refine ⟨?_, ?_, ?_⟩
  · have h := slotInv_run n hn ops slotInit (slotInv_init n)
    exact Nat.le_trans h.1 h.2.1
  · intro s w rest hw
    obtain ⟨a, ws, hd⟩ := s
    simp only at hw
    subst hw
    rfl
  · intro s hw
    obtain ⟨a, ws, hd⟩ := s
    simp only at hw
    subst hw
    rfl

/-- Witness for C3: a concrete trace at slot size `MAX_LLM_CONCURRENT = 1`
and a concrete FIFO hand-over. -/
theorem claim3_admission_controller_witness :
    (runSlotOps MAX_LLM_CONCURRENT [.acquire 0, .acquire 1, .release, .release]
        slotInit).holders ≤ MAX_LLM_CONCURRENT ∧
    releaseLlmSlot { active := 1, waiters := [7], holders := 1 } =
      ({ active := 1, waiters := [], holders := 1 }, some 7) :=
  ⟨(claim3_admission_controller MAX_LLM_CONCURRENT (by decide) _).1,
   (claim3_admission_controller MAX_LLM_CONCURRENT (by decide) []).2.1 _ 7 [] rfl⟩

/-- C7: with no real token counts yet observed, the pre-send compaction
check ignores the character-based estimate (even one at 95 % of an
8,000-token window) and uses only the message-count threshold, so a
short conversation does not trigger; once a real count of 7,600 against the
8,000-token window has been observed, the next send triggers. -/
theorem claim7_compaction_trigger (sys : Str) (conv : List ChatMsg)
    (hlen : conv.length < COMPACT_THRESHOLD)
    (_hbig : estimateTokens sys conv ≥ 7600) :
    maybeAutoCompactTriggers false none none conv.length 8000 = false ∧
    maybeAutoCompactTriggers false (some 7600) none conv.length 8000 = true := by
  constructor
  · simp only [maybeAutoCompactTriggers, if_neg Bool.false_ne_true]
    unfold COMPACT_THRESHOLD at hlen ⊢
    simp only [decide_eq_false_iff_not]
    omega
  · simp [maybeAutoCompactTriggers]

/-- Witness for C7: an empty conversation whose system prompt alone puts
the estimate at exactly 7,600 tokens (95 % of 8,000). -/
theorem claim7_compaction_trigger_witness :
    maybeAutoCompactTriggers false none none ([] : List ChatMsg).length 8000 = false ∧
    maybeAutoCompactTriggers false (some 7600) none ([] : List ChatMsg).length 8000 = true :=
  claim7_compaction_trigger (List.replicate 30400 'a') []
    (by decide)
    (by rw [estimateTokens_eq, List.length_replicate]; norm_num)

/-- C8: the LM Studio v1 builder sends exactly the most recent user-role
text as `input`; given a configured (nonempty) system prompt, the
`system_prompt` field is present iff no `previousResponseId` was supplied;
`store:false` is forwarded iff the caller passed `store === false`; the
body never carries inline tool schemas, tool access being the
`integrations` descriptor (present iff descriptors were supplied). -/
theorem claim8_lmstudio_v1_builder (model sys : Str) (hsys : sys ≠ [])
    (prev : Option Str) (store : Option Bool) (integrations : List Str)
    (pre post : List ChatMsg) (t : Str)
    (hpost : ∀ m ∈ post, m.role ≠ USER_ROLE) :
    let b := buildLMStudioV1Request model (some sys)
      (pre ++ ({ role := USER_ROLE, content := .str t } : ChatMsg) :: post)
      prev store integrations
    b.input = t ∧
    (b.system_prompt = some sys ↔ jsTruthy prev = false) ∧
    (b.store = some false ↔ store = some false) ∧
    b.tools = none ∧
    b.integrations = (if integrations.isEmpty then none else some integrations) := by
  intro b
  have hinput : lastUserText
      (pre ++ ({ role := USER_ROLE, content := .str t } : ChatMsg) :: post) = t := by
    unfold lastUserText
    rw [List.reverse_append, List.reverse_cons, List.find?_append, List.find?_append]
    have hnone : post.reverse.find? (fun m => m.role == USER_ROLE) = none := by
      rw [List.find?_eq_none]
      intro x hx
      simpa using hpost x (List.mem_reverse.mp hx)
    rw [hnone]
    simp
  have hj : jsTruthy (some sys) = true := by
    simp [jsTruthy, List.isEmpty_iff, hsys]
  refine ⟨hinput, ?_, ?_, rfl, rfl⟩
  · show (if jsTruthy (some sys) && !jsTruthy prev then some sys else none) = some sys ↔ _
    rw [hj]
    cases hp : jsTruthy prev <;> simp
  · show (if store = some false then some false else none) = some false ↔ _
    split
    · next hst => simp [hst]
    · next hst => simp [hst]

/-- Witness for C8 at a concrete call. -/
theorem claim8_lmstudio_v1_builder_witness :
    let b := buildLMStudioV1Request ("m".data) (some ("be yourself".data))
      [({ role := USER_ROLE, content := .str ("hi".data) } : ChatMsg)]
      none (some false) ["mcp".data]
    b.input = "hi".data ∧
    (b.system_prompt = some ("be yourself".data) ↔ jsTruthy none = false) ∧
    (b.store = some false ↔ (some false : Option Bool) = some false) ∧
    b.tools = none ∧
    b.integrations = (if (["mcp".data] : List Str).isEmpty then none
      else some ["mcp".data]) := by
  have h := claim8_lmstudio_v1_builder ("m".data) ("be yourself".data) (by decide)
    none (some false) ["mcp".data] [] [] ("hi".data) (by intro m hm; cases hm)
  simpa using h

/-- C5: the extractor maps the multi-channel string with
`analysis="X"`/`final="Y"` to `{text:"Y", reasoning:"X"}`, maps
`"<think>X</think>Y"` to `{text:"Y", reasoning:"X"}`, maps plain `"Y"` to
`{text:"Y", reasoning:null}`, and tries the multi-channel convention
before the leading-tag convention. -/
theorem claim5_extractor_roundtrip :
    extractReasoningAndText
        ("<|channel|>analysis<|message|>X<|end|><|start|>assistant<|channel|>final<|message|>Y".data) =
      { text := "Y".data, reasoning := some ("X".data) } ∧
    extractReasoningAndText ("<think>X</think>Y".data) =
      { text := "Y".data, reasoning := some ("X".data) } ∧
    extractReasoningAndText ("Y".data) = { text := "Y".data, reasoning := none } ∧
    (∀ raw e, extractQwenChannels raw = some e → extractReasoningAndText raw = e) := by
  refine ⟨by decide, by decide, by decide, ?_⟩
  intro raw e h
  unfold extractReasoningAndText
  rw [h]

/-- Witness for C5's quantified conjunct at a concrete input. -/
theorem claim5_extractor_roundtrip_witness :
    extractReasoningAndText ("<|channel|>final<|message|>ok".data) =
      { text := "ok".data, reasoning := none } :=
  claim5_extractor_roundtrip.2.2.2 _ _ (by decide)

/-- C10: any input containing the channel marker whose collected channel
map has neither a `final` nor a `response` entry makes the multi-channel
extractor return `none`, and the unified extractor then falls through to
the `<think>`-tag convention. -/
theorem claim10_qwen_requires_final (raw : Str)
    (hmark : strIncludes CHANNEL_TAG raw = true)
    (hfin : lookupChan (scanChannels raw) FINAL_CH = none)
    (hresp : lookupChan (scanChannels raw) RESPONSE_CH = none) :
    extractQwenChannels raw = none ∧
    extractReasoningAndText raw = extractThinkTags raw := by
  have hne : raw ≠ [] := by
    rintro rfl
    exact absurd hmark (by decide)
  have h1 : extractQwenChannels raw = none := by
    unfold extractQwenChannels
    simp [hne, hmark, hfin, hresp]
  refine ⟨h1, ?_⟩
  unfold extractReasoningAndText
  rw [h1]

/-- Witness for C10: marker present, only an `analysis` channel. -/
theorem claim10_qwen_requires_final_witness :
    extractQwenChannels ("<|channel|>analysis<|message|>X".data) = none ∧
    extractReasoningAndText ("<|channel|>analysis<|message|>X".data) =
      extractThinkTags ("<|channel|>analysis<|message|>X".data) :=
  claim10_qwen_requires_final _ (by decide) (by decide) (by decide)

/-- C1: for every dialect in \x7banthropic, openai, lmstudio,
lmstudio-v1\x7d and every well-formed fixture response body, the
non-streaming parse and the result resolved by streaming the
event-stream encoding of that body agree on `text`, `reasoning` and
`toolUse` (`rawContent` and other internal bookkeeping may differ).  The
`openai` and `lmstudio` dialects share one code path, covered here by
quantifying over the mode tag; the `lmstudio-v1` stream hands the
`chat.end` payload to the non-streaming parser, so it agrees on every
field with no well-formedness assumption.  `enc`/`dec` abstract the JSON
codec of the transport. -/
theorem claim1_stream_parse_equiv (enc : Json → Str) (dec : Str → Option Json) :
    (∀ body : AnthBody, AnthWf enc dec body →
      (streamAnthropicResult dec (fixtureStreamOfAnthropic enc body)).text
          = (parseAnthropicResponse body).text ∧
      (streamAnthropicResult dec (fixtureStreamOfAnthropic enc body)).reasoning
          = (parseAnthropicResponse body).reasoning ∧
      (streamAnthropicResult dec (fixtureStreamOfAnthropic enc body)).toolUse
          = (parseAnthropicResponse body).toolUse) ∧
    (∀ (mode : Mode) (body : OAIBody), OAIWf body →
      (streamOpenAIResult dec mode (fixtureStreamOfOpenAI body)).text
          = (parseOpenAIResponse dec mode body).text ∧
      (streamOpenAIResult dec mode (fixtureStreamOfOpenAI body)).reasoning
          = (parseOpenAIResponse dec mode body).reasoning ∧
      (streamOpenAIResult dec mode (fixtureStreamOfOpenAI body)).toolUse
          = (parseOpenAIResponse dec mode body).toolUse) ∧
    (∀ body : V1Body,
      streamLMStudioV1Result (fixtureStreamOfLMStudioV1 body)
        = parseLMStudioV1Response body) :=
  ⟨fun body wf => anth_equiv enc dec body wf,
   fun mode body wf => oai_equiv dec mode body wf,
   fun body => v1_equiv body⟩

/-- Witness for C1: concrete fixtures for all four dialects, with the
canonical-text JSON codec. -/
theorem claim1_stream_parse_equiv_witness :
    ((streamAnthropicResult decCanon (fixtureStreamOfAnthropic encCanon anthFixture)).text
        = (parseAnthropicResponse anthFixture).text ∧
      (streamAnthropicResult decCanon (fixtureStreamOfAnthropic encCanon anthFixture)).reasoning
        = (parseAnthropicResponse anthFixture).reasoning ∧
      (streamAnthropicResult decCanon (fixtureStreamOfAnthropic encCanon anthFixture)).toolUse
        = (parseAnthropicResponse anthFixture).toolUse) ∧
    ((streamOpenAIResult decCanon Mode.openai (fixtureStreamOfOpenAI oaiToolFixture)).text
        = (parseOpenAIResponse decCanon Mode.openai oaiToolFixture).text ∧
      (streamOpenAIResult decCanon Mode.openai (fixtureStreamOfOpenAI oaiToolFixture)).reasoning
        = (parseOpenAIResponse decCanon Mode.openai oaiToolFixture).reasoning ∧
      (streamOpenAIResult decCanon Mode.openai (fixtureStreamOfOpenAI oaiToolFixture)).toolUse
        = (parseOpenAIResponse decCanon Mode.openai oaiToolFixture).toolUse) ∧
    ((streamOpenAIResult decCanon Mode.lmstudio (fixtureStreamOfOpenAI oaiTextFixture)).text
        = (parseOpenAIResponse decCanon Mode.lmstudio oaiTextFixture).text ∧
      (streamOpenAIResult decCanon Mode.lmstudio (fixtureStreamOfOpenAI oaiTextFixture)).reasoning
        = (parseOpenAIResponse decCanon Mode.lmstudio oaiTextFixture).reasoning ∧
      (streamOpenAIResult decCanon Mode.lmstudio (fixtureStreamOfOpenAI oaiTextFixture)).toolUse
        = (parseOpenAIResponse decCanon Mode.lmstudio oaiTextFixture).toolUse) ∧
    (streamLMStudioV1Result (fixtureStreamOfLMStudioV1 v1Fixture)
        = parseLMStudioV1Response v1Fixture) := by
  have h := claim1_stream_parse_equiv encCanon decCanon
  refine ⟨h.1 anthFixture ?_, h.2.1 Mode.openai oaiToolFixture ?_,
    h.2.1 Mode.lmstudio oaiTextFixture ?_, h.2.2 v1Fixture⟩
  · refine ⟨by decide, by decide, by decide, by decide, by decide, ?_⟩
    intro b hb i n inp heq
    rfl
  · refine ⟨?_, ?_, ?_⟩
    · intro msg h2
      simp only [oaiToolFixture] at h2
      injection h2 with h3
      subst h3
      decide
    · intro msg h2
      simp only [oaiToolFixture] at h2
      injection h2 with h3
      subst h3
      decide
    · intro msg c h2 htc hc
      simp only [oaiToolFixture] at h2
      injection h2 with h3
      subst h3
      exact Option.noConfusion hc
  · refine ⟨?_, ?_, ?_⟩
    · intro msg h2
      simp only [oaiTextFixture] at h2
      injection h2 with h3
      subst h3
      decide
    · intro msg h2
      simp only [oaiTextFixture] at h2
      injection h2 with h3
      subst h3
      decide
    · intro msg c h2 htc hc
      simp only [oaiTextFixture] at h2
      injection h2 with h3
      subst h3
      exact absurd rfl htc

/-- C4: with step cap C = `getMaxToolSteps` (configured value clamped at
the absolute ceiling `HARD_TOOL_CAP` regardless of configuration), one
loop invocation issues at most C+1 wire calls, the i-th issued call is
the step-i call (their step indices are exactly 0,1,…), and any call
issued at step C — the C+1-th when reached — is built with an empty tool
set. -/
theorem claim4_step_cap (env : LoopEnv) (cfg : LoopCfg) (session : Session)
    (lm : List Entry) (maxToolSteps : Option Nat)
    (_hcap : cfg.stepCap = getMaxToolSteps maxToolSteps) :
    getMaxToolSteps maxToolSteps ≤ HARD_TOOL_CAP ∧
    (runLoop env cfg session lm).calls.length ≤ cfg.stepCap + 1 ∧
    (runLoop env cfg session lm).calls.map (fun c => c.step)
      = List.range (runLoop env cfg session lm).calls.length ∧
    (∀ c ∈ (runLoop env cfg session lm).calls, c.step = cfg.stepCap → c.tools = []) := by
  refine ⟨Nat.min_le_right _ _, ?_, ?_, ?_⟩
  · have h := (runLoopAux_calls_len env cfg (cfg.stepCap + 1) 0 session lm []).2
    simpa [runLoop] using h
  · obtain ⟨k, hk, hmap⟩ := runLoopAux_steps env cfg (cfg.stepCap + 1) 0 session lm []
    simp only [List.map_nil, List.nil_append] at hmap
    have hlen := congrArg List.length hmap
    simp only [List.length_map, List.length_range'] at hlen
    show (runLoopAux env cfg (cfg.stepCap + 1) 0 session lm []).calls.map (fun c => c.step)
      = List.range (runLoopAux env cfg (cfg.stepCap + 1) 0 session lm []).calls.length
    rw [hmap, hlen, List.range_eq_range']
  · exact runLoopAux_tools_at_cap env cfg (cfg.stepCap + 1) 0 session lm []
      (fun c hc => absurd hc (List.not_mem_nil c))

/-- Witness for C4: a configured value of 50 is clamped to 20 and the
bounds hold on a concrete run. -/
theorem claim4_step_cap_witness :
    getMaxToolSteps (some 50) ≤ HARD_TOOL_CAP ∧
    (runLoop
        { callResult := fun _ _ => none, execTool := fun _ _ => .ok [],
          abortAt := fun _ => false, now := 0 }
        { useTools := true, stepCap := 20, isHeartbeat := false, toolDefs := [] }
        { conversation := [], lastResponseId := none, lastTokens := none,
          lastActivity := none }
        []).calls.length ≤ 20 + 1 ∧
    (runLoop
        { callResult := fun _ _ => none, execTool := fun _ _ => .ok [],
          abortAt := fun _ => false, now := 0 }
        { useTools := true, stepCap := 20, isHeartbeat := false, toolDefs := [] }
        { conversation := [], lastResponseId := none, lastTokens := none,
          lastActivity := none }
        []).calls.map (fun c => c.step)
      = List.range (runLoop
        { callResult := fun _ _ => none, execTool := fun _ _ => .ok [],
          abortAt := fun _ => false, now := 0 }
        { useTools := true, stepCap := 20, isHeartbeat := false, toolDefs := [] }
        { conversation := [], lastResponseId := none, lastTokens := none,
          lastActivity := none }
        []).calls.length ∧
    (∀ c ∈ (runLoop
        { callResult := fun _ _ => none, execTool := fun _ _ => .ok [],
          abortAt := fun _ => false, now := 0 }
        { useTools := true, stepCap := 20, isHeartbeat := false, toolDefs := [] }
        { conversation := [], lastResponseId := none, lastTokens := none,
          lastActivity := none }
        []).calls, c.step = 20 → c.tools = []) :=
  claim4_step_cap _ _ _ _ (some 50) (by decide)

/-- C6: when executing a requested tool call throws `Error("disk full")`,
the tool-result entry appended to the conversation for that call carries
the literal text `Error: disk full`, and the loop proceeds to issue the
next wire call instead of terminating. -/
theorem claim6_tool_error_recoverable (env : LoopEnv) (cfg : LoopCfg)
    (session : Session) (lm : List Entry) (r : CallResult) (tc : ToolCall)
    (huse : cfg.useTools = true) (hhb : cfg.isHeartbeat = false)
    (hcap : 1 ≤ cfg.stepCap)
    (hab0 : env.abortAt 0 = false) (hab1 : env.abortAt 1 = false)
    (hres : env.callResult 0 cfg.toolDefs = some r)
    (htu : r.toolUse = some [tc]) (hmode : r.mode = Mode.openai)
    (hexec : env.execTool 0 tc = .error ("disk full".data)) :
    Entry.openaiToolResult tc.id ("Error: disk full".data)
      ∈ (runLoop env cfg session lm).session.conversation ∧
    2 ≤ (runLoop env cfg session lm).calls.length := by
  have hlast : ((0 : Nat) == cfg.stepCap) = false := by
    simp only [beq_eq_false_iff_ne]
    omega
  have htools0 : loopTools cfg 0 = cfg.toolDefs := by
    simp [loopTools, huse, hlast, hhb]
  have hres' : env.callResult 0 (loopTools cfg 0) = some r := by
    rw [htools0]
    exact hres
  have happ : "Error: ".data ++ "disk full".data = "Error: disk full".data := by decide
  have hre : loopResultEntries env 0 r =
      [Entry.openaiToolResult tc.id ("Error: disk full".data)] := by
    simp [loopResultEntries, hmode, loopToolResults, htu, hexec, toolResultStr, happ]
  have hT : (loopToolTurn env cfg 0 (noteResultState cfg session r) lm r).1.conversation
      = (noteResultState cfg session r).conversation
        ++ [loopAssistantEntry r] ++ loopResultEntries env 0 r := by
    simp [loopToolTurn, pushEntries, hhb]
  obtain ⟨c, hc⟩ : ∃ c, cfg.stepCap = c + 1 := ⟨cfg.stepCap - 1, by omega⟩
  have hstep := runLoopAux_tool_step env cfg (c + 1) 0 session lm [] hab0 hlast r hres'
    tc [] htu
  have hrun : runLoop env cfg session lm
      = runLoopAux env cfg (c + 1) 1
          (loopToolTurn env cfg 0 (noteResultState cfg session r) lm r).1
          (loopToolTurn env cfg 0 (noteResultState cfg session r) lm r).2
          [{ step := 0, tools := loopTools cfg 0 }] := by
    show runLoopAux env cfg (cfg.stepCap + 1) 0 session lm [] = _
    rw [hc]
    simpa using hstep
  constructor
  · obtain ⟨suf, hsuf⟩ := runLoopAux_conversation_mono env cfg (c + 1) 1
      (loopToolTurn env cfg 0 (noteResultState cfg session r) lm r).1
      (loopToolTurn env cfg 0 (noteResultState cfg session r) lm r).2
      [{ step := 0, tools := loopTools cfg 0 }]
    rw [hrun, hsuf, hT, hre]
    simp
  · rw [hrun]
    have h := runLoopAux_progress env cfg c 1
      (loopToolTurn env cfg 0 (noteResultState cfg session r) lm r).1
      (loopToolTurn env cfg 0 (noteResultState cfg session r) lm r).2
      [{ step := 0, tools := loopTools cfg 0 }] hab1
    simpa using h

/-- Witness for C6 at a concrete run: one requested call whose execution
throws, then a second wire call. -/
theorem claim6_tool_error_recoverable_witness :
    Entry.openaiToolResult ("1".data) ("Error: disk full".data)
      ∈ (runLoop
          { callResult := fun s _ => if s == 0 then
              some { text := none,
                     toolUse := some [{ id := "1".data, name := "file_write".data,
                                        input := "\x7b\x7d".data }],
                     rawContent := [], rawToolCalls := [], reasoning := none,
                     stats := none, responseId := none, mode := Mode.openai }
              else none,
            execTool := fun _ _ => .error ("disk full".data),
            abortAt := fun _ => false, now := 0 }
          { useTools := true, stepCap := 1, isHeartbeat := false, toolDefs := [] }
          { conversation := [], lastResponseId := none, lastTokens := none,
            lastActivity := none }
          []).session.conversation ∧
    2 ≤ (runLoop
          { callResult := fun s _ => if s == 0 then
              some { text := none,
                     toolUse := some [{ id := "1".data, name := "file_write".data,
                                        input := "\x7b\x7d".data }],
                     rawContent := [], rawToolCalls := [], reasoning := none,
                     stats := none, responseId := none, mode := Mode.openai }
              else none,
            execTool := fun _ _ => .error ("disk full".data),
            abortAt := fun _ => false, now := 0 }
          { useTools := true, stepCap := 1, isHeartbeat := false, toolDefs := [] }
          { conversation := [], lastResponseId := none, lastTokens := none,
            lastActivity := none }
          []).calls.length := by
  exact claim6_tool_error_recoverable _ _ _ _
    { text := none,
      toolUse := some [{ id := "1".data, name := "file_write".data,
                         input := "\x7b\x7d".data }],
      rawContent := [], rawToolCalls := [], reasoning := none,
      stats := none, responseId := none, mode := Mode.openai }
    { id := "1".data, name := "file_write".data, input := "\x7b\x7d".data }
    rfl rfl (by decide) rfl rfl rfl rfl rfl rfl

/-- C9: an isolated (heartbeat) invocation leaves the entity's persistent
session state — conversation history, chained response id, last token
stats, last-activity timestamp — unchanged, and every wire call's tool
set excludes the publishing tool `reef_post`. -/
theorem claim9_heartbeat_isolation (env : LoopEnv) (cfg : LoopCfg)
    (session : Session) (lm : List Entry) (hhb : cfg.isHeartbeat = true) :
    (runLoop env cfg session lm).session = session ∧
    (∀ c ∈ (runLoop env cfg session lm).calls, ∀ t ∈ c.tools, t.name ≠ REEF_POST) :=
  ⟨runLoopAux_heartbeat_session env cfg hhb _ _ _ _ _,
   runLoopAux_heartbeat_tools env cfg hhb _ _ _ _ _
     (fun c hc => absurd hc (List.not_mem_nil c))⟩

/-- Witness for C9: a concrete heartbeat run over a tool set containing
`reef_post` leaves a nonempty session untouched. -/
theorem claim9_heartbeat_isolation_witness :
    (runLoop
        { callResult := fun _ _ => none, execTool := fun _ _ => .ok [],
          abortAt := fun _ => false, now := 99 }
        { useTools := true, stepCap := 2, isHeartbeat := true,
          toolDefs := [{ name := REEF_POST }, { name := "memory_save".data }] }
        { conversation := [Entry.userMsg ("hello".data)],
          lastResponseId := some ("resp_7".data),
          lastTokens := some { inputTokens := some 10, outputTokens := some 3 },
          lastActivity := some 5 }
        []).session
      = { conversation := [Entry.userMsg ("hello".data)],
          lastResponseId := some ("resp_7".data),
          lastTokens := some { inputTokens := some 10, outputTokens := some 3 },
          lastActivity := some 5 } ∧
    (∀ c ∈ (runLoop
        { callResult := fun _ _ => none, execTool := fun _ _ => .ok [],
          abortAt := fun _ => false, now := 99 }
        { useTools := true, stepCap := 2, isHeartbeat := true,
          toolDefs := [{ name := REEF_POST }, { name := "memory_save".data }] }
        { conversation := [Entry.userMsg ("hello".data)],
          lastResponseId := some ("resp_7".data),
          lastTokens := some { inputTokens := some 10, outputTokens := some 3 },
          lastActivity := some 5 }
        []).calls, ∀ t ∈ c.tools, t.name ≠ REEF_POST) :=
  claim9_heartbeat_isolation _ _ _ _ rfl

end Reef
